import Mathlib

set_option maxRecDepth 100000

/-!
Verification of the imageproxy core (option grammar, transformation
parameters, signature validation, admission caching, bounded reader,
transforming transport) against its natural-language specification.

The Go sources are embedded shallowly:

* `float64` values are modelled as exact rationals (`Q` below), machine
  integers as unbounded `Int`/`Nat` (no arithmetic in the embedded code
  approaches overflow for the inputs of interest);
* byte strings are `List Nat` (each entry < 256);
* the image codecs and the `imaging` library are abstracted as records of
  operations (`ImagingOps`, `Codec`), since the claims only concern the
  geometry computed by this repository and which library operation is
  invoked with which arguments;
* impure details (statsd counters, glog logging) are dropped: they do not
  affect any returned value.
-/

/-! ### A fuelled gcd, kernel-reducible, agreeing with `Nat.gcd` -/

/-- Fuelled Euclidean gcd; with fuel ≥ first argument it equals `Nat.gcd`. -/
def gcdF : Nat → Nat → Nat → Nat
  | 0, _, b => b
  | fuel + 1, a, b => if a = 0 then b else gcdF fuel (b % a) a

theorem gcdF_eq_gcd : ∀ (fuel a b : Nat), a ≤ fuel → gcdF fuel a b = Nat.gcd a b := by
  intro fuel
  induction fuel with
  | zero =>
    intro a b ha
    interval_cases a
    simp [gcdF]
  | succ f ih =>
    intro a b ha
    by_cases h0 : a = 0
    · simp [gcdF, h0]
    · have hlt : b % a < a := Nat.mod_lt _ (Nat.pos_of_ne_zero h0)
      have : b % a ≤ f := Nat.lt_succ_iff.mp (Nat.lt_of_lt_of_le hlt ha)
      rw [gcdF, if_neg h0, ih _ _ this, ← Nat.gcd_rec]

/-! ### Q: executable rationals modelling Go float64 values exactly

Go's `float64` holds dyadic rationals; formatting with the `%v` verb and
parsing with `strconv.ParseFloat` round-trip exactly.  We model such
numbers as rationals kept in lowest terms by the smart constructor `mkQ`.
All operations are kernel-reducible (no well-founded recursion), so
concrete witnesses evaluate by `decide`. -/

/-- A rational number: `num / den`.  Values built by `mkQ` are normalised
(positive denominator, coprime).  Models a Go `float64` exactly. -/
structure Q where
  num : Int
  den : Nat
  deriving DecidableEq, Repr

/-- Normalising constructor: `mkQ n d` is `n / d` in lowest terms
(`d = 0` is mapped to `0`, a case unreachable from the embedded code). -/
def mkQ (n : Int) (d : Nat) : Q :=
  if d = 0 then ⟨0, 1⟩
  else
    let g := gcdF n.natAbs n.natAbs d
    ⟨n / (g : Int), d / g⟩

/-- `q` is in lowest terms with a nonzero denominator. -/
def Q.isNorm (q : Q) : Prop := q.den ≠ 0 ∧ Nat.Coprime q.num.natAbs q.den

/-- Value of a `Q` in Mathlib's rationals (proof-side only). -/
noncomputable def Q.val (q : Q) : ℚ := (q.num : ℚ) / (q.den : ℚ)

theorem mkQ_isNorm (n : Int) (d : Nat) : (mkQ n d).isNorm := by
  unfold mkQ
  by_cases hd : d = 0
  · simp [hd, Q.isNorm]
  · have hg : gcdF n.natAbs n.natAbs d = Nat.gcd n.natAbs d := gcdF_eq_gcd _ _ _ le_rfl
    simp only [if_neg hd]
    have hgpos : 0 < Nat.gcd n.natAbs d := Nat.gcd_pos_of_pos_right _ (Nat.pos_of_ne_zero hd)
    constructor
    · have hdvd : Nat.gcd n.natAbs d ∣ d := Nat.gcd_dvd_right _ _
      have : 0 < d / Nat.gcd n.natAbs d :=
        Nat.div_pos (Nat.le_of_dvd (Nat.pos_of_ne_zero hd) hdvd) hgpos
      simp only [hg]
      omega
    · have hdvdn : ((Nat.gcd n.natAbs d : Nat) : Int) ∣ n :=
        dvd_trans (Int.natCast_dvd_natCast.mpr (Nat.gcd_dvd_left _ _))
          (Int.natAbs_dvd.mpr dvd_rfl)
      have habs : (n / (Nat.gcd n.natAbs d : Int)).natAbs = n.natAbs / Nat.gcd n.natAbs d := by
        rw [Int.natAbs_ediv _ _ hdvdn]
        simp
      simp only [hg, habs]
      exact Nat.coprime_div_gcd_div_gcd hgpos

theorem mkQ_val (n : Int) (d : Nat) (hd : d ≠ 0) : (mkQ n d).val = (n : ℚ) / (d : ℚ) := by
  unfold mkQ Q.val
  have hg : gcdF n.natAbs n.natAbs d = Nat.gcd n.natAbs d := gcdF_eq_gcd _ _ _ le_rfl
  simp only [if_neg hd, hg]
  set g := Nat.gcd n.natAbs d with hgdef
  clear_value g
  have hgpos : 0 < g := hgdef ▸ Nat.gcd_pos_of_pos_right _ (Nat.pos_of_ne_zero hd)
  have hdvdn : ((g : Nat) : Int) ∣ n :=
    hgdef ▸ dvd_trans (Int.natCast_dvd_natCast.mpr (Nat.gcd_dvd_left _ _))
      (Int.natAbs_dvd.mpr dvd_rfl)
  have hdvdd : g ∣ d := hgdef ▸ Nat.gcd_dvd_right _ _
  have hgz : (g : Int) ≠ 0 := by exact_mod_cast hgpos.ne'
  have hgQ : ((g : Nat) : ℚ) ≠ 0 := by exact_mod_cast hgpos.ne'
  clear hgdef hg
  obtain ⟨n', hn'⟩ := hdvdn
  obtain ⟨d', hd'⟩ := hdvdd
  have hq1 : n / (g : Int) = n' := by
    rw [hn', Int.mul_ediv_cancel_left _ hgz]
  have hq2 : d / g = d' := by
    rw [hd', Nat.mul_div_cancel_left _ hgpos]
  rw [hq1, hq2]
  rw [hn', hd']
  push_cast
  rw [mul_div_mul_left _ _ hgQ]

theorem qnorm_val_inj {a b : Q} (ha : a.isNorm) (hb : b.isNorm) (h : a.val = b.val) : a = b := by
  obtain ⟨had, hac⟩ := ha
  obtain ⟨hbd, hbc⟩ := hb
  have had' : (0 : Int) < (a.den : Int) := by exact_mod_cast Nat.pos_of_ne_zero had
  have hbd' : (0 : Int) < (b.den : Int) := by exact_mod_cast Nat.pos_of_ne_zero hbd
  have hac' : Nat.Coprime a.num.natAbs ((a.den : Int)).natAbs := by simpa using hac
  have hbc' : Nat.Coprime b.num.natAbs ((b.den : Int)).natAbs := by simpa using hbc
  have h' : (a.num : ℚ) / ((a.den : Int) : ℚ) = (b.num : ℚ) / ((b.den : Int) : ℚ) := by
    unfold Q.val at h
    push_cast
    exact h
  obtain ⟨h1, h2⟩ := Rat.div_int_inj had' hbd' hac' hbc' h'
  have h2' : a.den = b.den := by exact_mod_cast h2
  cases a; cases b
  simp_all

/-- Truncation toward zero, modelling Go's `int(f)` conversion. -/
def Q.trunc (q : Q) : Int := q.num.tdiv (q.den : Int)

/-- Strict order test (sound for values with positive denominators). -/
def Q.blt (a b : Q) : Bool := decide (a.num * (b.den : Int) < b.num * (a.den : Int))

/-- A rational from an integer. -/
def qOfInt (n : Int) : Q := ⟨n, 1⟩

/-- Quotient of two machine integers as an exact rational (models Go's
`float64(a) / float64(b)`). -/
def qDivInt (a b : Int) : Q :=
  if 0 ≤ b then mkQ a b.toNat else mkQ (-a) (-b).toNat

/-- Multiply by an integer (models `float64(n) * f`). -/
def Q.mulInt (q : Q) (n : Int) : Q := mkQ (q.num * n) q.den

/-- Multiply by `10 ^ k` (used to find the decimal expansion). -/
def mulPow10 (q : Q) (k : Nat) : Q := mkQ (q.num * ((10 ^ k : Nat) : Int)) q.den

/-- Smallest `k` (if any, searched up to `q.den`) with `q * 10 ^ k` integral.
For any value a Go float64 can hold the search succeeds. -/
def findK (q : Q) : Option Nat :=
  (List.range (q.den + 1)).find? (fun k => (mulPow10 q k).den == 1)

/-! ### Decimal digit strings -/

/-- Little-endian base-10 digits, fuelled (`[]` for 0). -/
def digsF : Nat → Nat → List Nat
  | 0, _ => []
  | fuel + 1, n => if n = 0 then [] else n % 10 :: digsF fuel (n / 10)

/-- The character for digit `d < 10`. -/
def digitChar (d : Nat) : Char := Char.ofNat (48 + d)

/-- Decimal representation of a natural, most significant digit first
(models the integer part of Go's `%v` / `strconv.Itoa`). -/
def natReprL (n : Nat) : List Char :=
  if n = 0 then ['0'] else ((digsF n n).reverse).map digitChar

/-- Decimal representation of an integer (models Go's `%d`). -/
def intReprL (i : Int) : List Char :=
  if i < 0 then '-' :: natReprL i.natAbs else natReprL i.natAbs

/-- Is `c` an ASCII digit. -/
def isDigitC (c : Char) : Bool := 48 ≤ c.toNat && c.toNat ≤ 57

/-- Numeric value of a digit character. -/
def digitVal (c : Char) : Nat := c.toNat - 48

/-- Value of a most-significant-first digit-character string. -/
def ofDigitsL (l : List Char) : Nat := l.foldl (fun acc c => 10 * acc + digitVal c) 0

/-- Value of a most-significant-first digit list. -/
def ofDigitsNat (l : List Nat) : Nat := l.foldl (fun acc d => 10 * acc + d) 0

/-- Value of a little-endian digit list. -/
def valLE (l : List Nat) : Nat := l.foldr (fun d acc => d + 10 * acc) 0

theorem ofDigitsNat_append (a b : List Nat) :
    ofDigitsNat (a ++ b) = ofDigitsNat a * 10 ^ b.length + ofDigitsNat b := by
  induction b using List.reverseRecOn with
  | nil => simp [ofDigitsNat]
  | append_singleton bs d ih =>
    rw [← List.append_assoc]
    simp only [ofDigitsNat, List.foldl_append, List.foldl_cons, List.foldl_nil,
      List.length_append, List.length_cons, List.length_nil] at *
    rw [ih, pow_succ]
    ring

theorem ofDigitsNat_reverse (l : List Nat) : ofDigitsNat l.reverse = valLE l := by
  induction l with
  | nil => rfl
  | cons d l ih =>
    rw [List.reverse_cons, ofDigitsNat_append, ih]
    simp [ofDigitsNat, valLE]
    ring

theorem valLE_digsF : ∀ (fuel n : Nat), n ≤ fuel → valLE (digsF fuel n) = n := by
  intro fuel
  induction fuel with
  | zero =>
    intro n hn
    interval_cases n
    rfl
  | succ f ih =>
    intro n hn
    by_cases h0 : n = 0
    · simp [digsF, h0, valLE]
    · have hq : n / 10 ≤ f := by
        have : n / 10 < n := Nat.div_lt_self (Nat.pos_of_ne_zero h0) (by norm_num)
        omega
      rw [digsF, if_neg h0]
      simp only [valLE, List.foldr_cons]
      have := ih (n / 10) hq
      unfold valLE at this
      rw [this]
      omega

theorem digsF_lt_ten : ∀ (fuel n : Nat), ∀ d ∈ digsF fuel n, d < 10 := by
  intro fuel
  induction fuel with
  | zero => intro n d hd; simp [digsF] at hd
  | succ f ih =>
    intro n d hd
    by_cases h0 : n = 0
    · simp [digsF, h0] at hd
    · rw [digsF, if_neg h0] at hd
      rcases List.mem_cons.mp hd with h | h
      · subst h; exact Nat.mod_lt _ (by norm_num)
      · exact ih _ _ h

theorem digsF_length_le : ∀ (fuel n k : Nat), n < 10 ^ k → (digsF fuel n).length ≤ k := by
  intro fuel
  induction fuel with
  | zero => intro n k _; simp [digsF]
  | succ f ih =>
    intro n k hn
    by_cases h0 : n = 0
    · simp [digsF, h0]
    · have hk : k ≠ 0 := by
        rintro rfl
        simp at hn
        omega
      obtain ⟨k', rfl⟩ := Nat.exists_eq_succ_of_ne_zero hk
      rw [digsF, if_neg h0]
      simp only [List.length_cons]
      have hdiv : n / 10 < 10 ^ k' := by
        rw [pow_succ] at hn
        omega
      exact Nat.succ_le_succ (ih _ _ hdiv)

theorem digitVal_digitChar : ∀ d, d < 10 → digitVal (digitChar d) = d := by decide

theorem isDigitC_digitChar : ∀ d, d < 10 → isDigitC (digitChar d) = true := by decide

theorem ofDigitsL_map_digitChar (l : List Nat) (hl : ∀ d ∈ l, d < 10) :
    ofDigitsL (l.map digitChar) = ofDigitsNat l := by
  induction l using List.reverseRecOn with
  | nil => rfl
  | append_singleton l d ih =>
    have hd : d < 10 := hl d (by simp)
    have hl' : ∀ x ∈ l, x < 10 := fun x hx => hl x (by simp [hx])
    simp only [List.map_append, List.map_cons, List.map_nil, ofDigitsL, ofDigitsNat,
      List.foldl_append, List.foldl_cons, List.foldl_nil] at *
    rw [ih hl', digitVal_digitChar d hd]

theorem ofDigitsL_natReprL (n : Nat) : ofDigitsL (natReprL n) = n := by
  unfold natReprL
  by_cases h0 : n = 0
  · simp [h0]; rfl
  · rw [if_neg h0]
    rw [ofDigitsL_map_digitChar _ (fun d hd => digsF_lt_ten n n d (List.mem_reverse.mp hd))]
    rw [ofDigitsNat_reverse, valLE_digsF n n le_rfl]

theorem natReprL_ne_nil (n : Nat) : natReprL n ≠ [] := by
  unfold natReprL
  by_cases h0 : n = 0
  · simp [h0]
  · rw [if_neg h0]
    intro h
    have : valLE (digsF n n) = n := valLE_digsF n n le_rfl
    rw [List.map_eq_nil_iff, List.reverse_eq_nil_iff] at h
    rw [h] at this
    exact h0 (by simpa [valLE] using this.symm)

theorem natReprL_all_digits (n : Nat) : ∀ c ∈ natReprL n, isDigitC c = true := by
  unfold natReprL
  by_cases h0 : n = 0
  · simp [h0]
    decide
  · rw [if_neg h0]
    intro c hc
    obtain ⟨d, hd, rfl⟩ := List.mem_map.mp hc
    exact isDigitC_digitChar d (digsF_lt_ten n n d (List.mem_reverse.mp hd))

theorem natReprL_length_le (n k : Nat) (hk : 1 ≤ k) (hn : n < 10 ^ k) :
    (natReprL n).length ≤ k := by
  unfold natReprL
  by_cases h0 : n = 0
  · simpa [h0] using hk
  · rw [if_neg h0]
    simpa using digsF_length_le n n k hn

/-! ### Formatting and parsing of float values

`fmtQ` models the output of Go's `%v` verb on a float64 holding the exact
value `q` (plain decimal notation; Go switches to scientific notation only
for very large/small magnitudes, which no claim exercises).  `parseFloatL`
models `strconv.ParseFloat` restricted to plain decimal notation; parse
failure stands for a nonzero `err`. -/

/-- Digits of `n` left-padded with `'0'` to width `k` (fractional part). -/
def fracDigitsL (n k : Nat) : List Char :=
  List.replicate (k - (natReprL n).length) '0' ++ natReprL n

/-- Decimal rendering of a nonnegative `Q` in lowest terms: the digits of
the integer part, then (when the value is not integral) a dot and exactly
`k` fraction digits, `k` minimal.  This is Go's shortest plain-decimal
form.  The `none` fallback is unreachable for float64-representable
values. -/
def fmtQnn (q : Q) : List Char :=
  let k := (findK q).getD 0
  if (findK q).isNone then ['0']
  else if k = 0 then natReprL q.num.toNat
  else
    natReprL ((mulPow10 q k).num.toNat / 10 ^ k) ++
      '.' :: fracDigitsL ((mulPow10 q k).num.toNat % 10 ^ k) k

/-- Decimal rendering of a `Q` (Go `%v` on the corresponding float64). -/
def fmtQ (q : Q) : List Char :=
  if q.num < 0 then '-' :: fmtQnn (mkQ (-q.num) q.den) else fmtQnn q

/-- Parse a nonempty all-digit string. -/
def parseNatL (l : List Char) : Option Nat :=
  if l.isEmpty then none
  else if l.all isDigitC then some (ofDigitsL l) else none

/-- Model of `strconv.Atoi`: optional sign, then digits. -/
def parseIntL (l : List Char) : Option Int :=
  match l with
  | [] => none
  | c :: rest =>
      if c = '-' then (parseNatL rest).map (fun n => -(n : Int))
      else if c = '+' then (parseNatL rest).map (fun n => (n : Int))
      else (parseNatL l).map (fun n => (n : Int))

/-- Parse an unsigned decimal (integer part, optional dot, fraction part).
The remainder after the integer part, when nonempty, starts with `'.'` by
construction of `takeWhile`. -/
def parseDecL (l : List Char) : Option Q :=
  let ip := l.takeWhile (fun c => c ≠ '.')
  let rest := l.drop ip.length
  if rest.isEmpty then (parseNatL ip).map (fun n => mkQ (n : Int) 1)
  else
    let fp := rest.tail
    if fp.contains '.' then none
    else if ip.isEmpty && fp.isEmpty then none
    else if ip.all isDigitC && fp.all isDigitC then
      some (mkQ ((ofDigitsL ip * 10 ^ fp.length + ofDigitsL fp : Nat) : Int) (10 ^ fp.length))
    else none

/-- Model of `strconv.ParseFloat` (decimal subset): optional sign, then an
unsigned decimal. -/
def parseFloatL (l : List Char) : Option Q :=
  match l with
  | [] => none
  | c :: rest =>
      if c = '-' then (parseDecL rest).map (fun q => mkQ (-q.num) q.den)
      else if c = '+' then parseDecL rest
      else parseDecL l

theorem parseIntL_intReprL (i : Int) : parseIntL (intReprL i) = some i := by
  have hne := natReprL_ne_nil i.natAbs
  have hdig := natReprL_all_digits i.natAbs
  have hval := ofDigitsL_natReprL i.natAbs
  have hpn : parseNatL (natReprL i.natAbs) = some i.natAbs := by
    unfold parseNatL
    rw [if_neg (by simpa [List.isEmpty_iff] using hne)]
    rw [if_pos (List.all_eq_true.mpr hdig), hval]
  unfold intReprL
  by_cases hneg : i < 0
  · rw [if_pos hneg]
    simp only [parseIntL, reduceIte, hpn]
    show some (-(i.natAbs : Int)) = some i
    congr 1
    omega
  · rw [if_neg hneg]
    obtain ⟨c, cs, hcons⟩ := List.exists_cons_of_ne_nil hne
    have hc : isDigitC c = true := by
      apply hdig
      rw [hcons]
      exact List.mem_cons_self _ _
    have hcm : c ≠ '-' := by
      intro h
      rw [h] at hc
      exact absurd hc (by decide)
    have hcp : c ≠ '+' := by
      intro h
      rw [h] at hc
      exact absurd hc (by decide)
    rw [hcons]
    simp only [parseIntL, if_neg hcm, if_neg hcp]
    rw [← hcons, hpn]
    show some ((i.natAbs : Int)) = some i
    congr 1
    omega

theorem isDigitC_ne_dot {c : Char} (h : isDigitC c = true) : c ≠ '.' := by
  intro h'
  rw [h'] at h
  exact absurd h (by decide)

theorem isDigitC_ne_minus {c : Char} (h : isDigitC c = true) : c ≠ '-' := by
  intro h'
  rw [h'] at h
  exact absurd h (by decide)

theorem isDigitC_ne_plus {c : Char} (h : isDigitC c = true) : c ≠ '+' := by
  intro h'
  rw [h'] at h
  exact absurd h (by decide)

theorem takeWhile_of_all {p : Char → Bool} : ∀ (l : List Char), (∀ c ∈ l, p c = true) →
    List.takeWhile p l = l := by
  intro l
  induction l with
  | nil => intro _; rfl
  | cons c cs ih =>
    intro h
    rw [List.takeWhile_cons, if_pos (h c (List.mem_cons_self _ _))]
    rw [ih (fun x hx => h x (List.mem_cons_of_mem _ hx))]

theorem takeWhile_append_stop {p : Char → Bool} (A : List Char) (x : Char) (B : List Char)
    (hA : ∀ c ∈ A, p c = true) (hx : p x = false) :
    List.takeWhile p (A ++ x :: B) = A := by
  induction A with
  | nil => simp [List.takeWhile_cons, hx]
  | cons c cs ih =>
    rw [List.cons_append, List.takeWhile_cons, if_pos (hA c (List.mem_cons_self _ _))]
    rw [ih (fun y hy => hA y (List.mem_cons_of_mem _ hy))]

theorem ofDigitsL_replicate_zero (j : Nat) (l : List Char) :
    ofDigitsL (List.replicate j '0' ++ l) = ofDigitsL l := by
  induction j with
  | zero => simp
  | succ j ih =>
    rw [List.replicate_succ, List.cons_append]
    unfold ofDigitsL at *
    simp only [List.foldl_cons]
    have : (10 * 0 + digitVal '0') = 0 := by decide
    rw [this]
    exact ih

theorem contains_dot_false (l : List Char) (h : ∀ c ∈ l, isDigitC c = true) :
    l.contains '.' = false := by
  by_contra hc
  have : '.' ∈ l := by
    have := Bool.not_eq_false _ |>.mp hc
    exact List.elem_iff.mp this
  exact absurd (h _ this) (by decide)

theorem mkQ_num_nonneg (n : Int) (d : Nat) (hn : 0 ≤ n) : 0 ≤ (mkQ n d).num := by
  unfold mkQ
  by_cases hd : d = 0
  · simp [hd]
  · simp only [if_neg hd]
    exact Int.ediv_nonneg hn (by positivity)

theorem mulPow10_val (q : Q) (hd : q.den ≠ 0) (k : Nat) :
    (mulPow10 q k).val = q.val * ((10 ^ k : Nat) : ℚ) := by
  unfold mulPow10
  rw [mkQ_val _ _ hd]
  unfold Q.val
  push_cast
  ring

theorem den_one_val (q : Q) (h : q.den = 1) : q.val = (q.num : ℚ) := by
  unfold Q.val
  rw [h]
  simp

theorem mulPow10_den_one_iff (q : Q) (hn : q.isNorm) (j : Nat) :
    (mulPow10 q j).den = 1 ↔ q.den ∣ 10 ^ j := by
  obtain ⟨hd, hcop⟩ := hn
  unfold mulPow10 mkQ
  rw [if_neg hd]
  simp only
  have habs : (q.num * ((10 ^ j : Nat) : Int)).natAbs = q.num.natAbs * 10 ^ j := by
    rw [Int.natAbs_mul, Int.natAbs_ofNat]
  rw [gcdF_eq_gcd _ _ _ le_rfl, habs]
  have hgcd : Nat.gcd (q.num.natAbs * 10 ^ j) q.den = Nat.gcd (10 ^ j) q.den := by
    exact Nat.Coprime.gcd_mul_left_cancel _ hcop
  rw [hgcd]
  constructor
  · intro h1
    have hdvd : Nat.gcd (10 ^ j) q.den ∣ q.den := Nat.gcd_dvd_right _ _
    have heq : q.den = Nat.gcd (10 ^ j) q.den := by
      have hmul := Nat.div_mul_cancel hdvd
      rw [h1, one_mul] at hmul
      exact hmul.symm
    rw [heq]
    exact Nat.gcd_dvd_left _ _
  · intro h1
    have : Nat.gcd (10 ^ j) q.den = q.den := Nat.gcd_eq_right h1
    rw [this, Nat.div_self (Nat.pos_of_ne_zero hd)]

theorem exists_small_pow10_dvd (d : Nat) (hd : d ≠ 0) (j : Nat) (hdvd : d ∣ 10 ^ j) :
    ∃ k ≤ d, d ∣ 10 ^ k := by
  have h10 : (10 : Nat) ^ j = 2 ^ j * 5 ^ j := by rw [← Nat.mul_pow]
  rw [h10] at hdvd
  obtain ⟨y, z, hy, hz, hyz⟩ := Nat.dvd_mul.mp hdvd
  obtain ⟨a, ha, rfl⟩ := (Nat.dvd_prime_pow Nat.prime_two).mp hy
  obtain ⟨b, hb, rfl⟩ := (Nat.dvd_prime_pow Nat.prime_five).mp hz
  have hdpos : 0 < d := Nat.pos_of_ne_zero hd
  have ha' : 2 ^ a ≤ d := Nat.le_of_dvd hdpos ⟨5 ^ b, hyz.symm⟩
  have hb' : 5 ^ b ≤ d := Nat.le_of_dvd hdpos ⟨2 ^ a, by rw [← hyz]; ring⟩
  have haa : a ≤ d := le_trans (Nat.le_of_lt (Nat.lt_two_pow a)) ha'
  have hbb : b ≤ d := by
    have : b < 5 ^ b := Nat.lt_pow_self (by norm_num) b
    omega
  refine ⟨max a b, max_le haa hbb, ?_⟩
  have h2 : 2 ^ a ∣ 2 ^ max a b := pow_dvd_pow _ (le_max_left _ _)
  have h5 : 5 ^ b ∣ 5 ^ max a b := pow_dvd_pow _ (le_max_right _ _)
  have : (10 : Nat) ^ max a b = 2 ^ max a b * 5 ^ max a b := by rw [← Nat.mul_pow]
  rw [this, ← hyz]
  exact mul_dvd_mul h2 h5

theorem findK_some (q : Q) (hn : q.isNorm) (hdec : ∃ j, (mulPow10 q j).den = 1) :
    ∃ k, findK q = some k ∧ (mulPow10 q k).den = 1 := by
  obtain ⟨j, hj⟩ := hdec
  have hdvd : q.den ∣ 10 ^ j := (mulPow10_den_one_iff q hn j).mp hj
  obtain ⟨k, hk_le, hk_dvd⟩ := exists_small_pow10_dvd q.den hn.1 j hdvd
  have hp : ((mulPow10 q k).den == 1) = true := by
    rw [beq_iff_eq]
    exact (mulPow10_den_one_iff q hn k).mpr hk_dvd
  have hmem : k ∈ List.range (q.den + 1) := List.mem_range.mpr (Nat.lt_succ_of_le hk_le)
  have hsome : (findK q).isSome = true := by
    unfold findK
    exact List.find?_isSome.mpr ⟨k, hmem, hp⟩
  obtain ⟨k₀, hk₀⟩ := Option.isSome_iff_exists.mp hsome
  refine ⟨k₀, hk₀, ?_⟩
  have := List.find?_some (hk₀ ▸ rfl : findK q = some k₀)
  exact beq_iff_eq.mp this

theorem parseNatL_digits (l : List Char) (hne : l ≠ []) (hdig : ∀ c ∈ l, isDigitC c = true) :
    parseNatL l = some (ofDigitsL l) := by
  unfold parseNatL
  rw [if_neg (by simpa [List.isEmpty_iff] using hne)]
  rw [if_pos (List.all_eq_true.mpr hdig)]

theorem parseFloatL_digit_head (c : Char) (cs : List Char) (hc : isDigitC c = true) :
    parseFloatL (c :: cs) = parseDecL (c :: cs) := by
  simp only [parseFloatL]
  rw [if_neg (isDigitC_ne_minus hc), if_neg (isDigitC_ne_plus hc)]

theorem parseDecL_all_digits (l : List Char) (hne : l ≠ [])
    (hdig : ∀ c ∈ l, isDigitC c = true) :
    parseDecL l = some (mkQ ((ofDigitsL l : Nat) : Int) 1) := by
  have hip : l.takeWhile (fun c => decide (c ≠ '.')) = l :=
    takeWhile_of_all l (fun c hc => decide_eq_true (isDigitC_ne_dot (hdig c hc)))
  simp only [parseDecL, hip, List.drop_length, List.isEmpty_nil, if_true]
  rw [parseNatL_digits l hne hdig]
  rfl

theorem parseDecL_with_dot (A B : List Char) (hAne : A ≠ [])
    (hA : ∀ c ∈ A, isDigitC c = true) (hB : ∀ c ∈ B, isDigitC c = true) :
    parseDecL (A ++ '.' :: B) =
      some (mkQ ((ofDigitsL A * 10 ^ B.length + ofDigitsL B : Nat) : Int) (10 ^ B.length)) := by
  have hip : (A ++ '.' :: B).takeWhile (fun c => decide (c ≠ '.')) = A :=
    takeWhile_append_stop A '.' B
      (fun c hc => decide_eq_true (isDigitC_ne_dot (hA c hc))) (by decide)
  have hrest : (A ++ '.' :: B).drop A.length = '.' :: B := List.drop_left A ('.' :: B)
  simp only [parseDecL, hip, hrest, List.isEmpty_cons, List.tail_cons]
  rw [if_neg (by simp)]
  rw [if_neg (by rw [contains_dot_false B hB]; simp)]
  rw [if_neg (by simp [List.isEmpty_iff, hAne])]
  rw [if_pos (by rw [List.all_eq_true.mpr hA, List.all_eq_true.mpr hB]; rfl)]

theorem fmtQnn_spec (q : Q) (hn : q.isNorm) (hnn : 0 ≤ q.num)
    (hdec : ∃ j, (mulPow10 q j).den = 1) :
    parseFloatL (fmtQnn q) = some q ∧
    (∀ c ∈ fmtQnn q, isDigitC c = true ∨ c = '.') ∧
    (∃ c cs, fmtQnn q = c :: cs ∧ isDigitC c = true) := by
  obtain ⟨k₀, hfind, hden1⟩ := findK_some q hn hdec
  by_cases hk0 : k₀ = 0
  · subst hk0
    have hfmt : fmtQnn q = natReprL q.num.toNat := by
      simp [fmtQnn, hfind]
    have hden : q.den = 1 :=
      Nat.dvd_one.mp (by simpa using (mulPow10_den_one_iff q hn 0).mp hden1)
    have hne := natReprL_ne_nil q.num.toNat
    have hdig := natReprL_all_digits q.num.toNat
    obtain ⟨c, cs, hcons⟩ := List.exists_cons_of_ne_nil hne
    have hc : isDigitC c = true := hdig c (hcons ▸ List.mem_cons_self _ _)
    refine ⟨?_, ?_, ?_⟩
    · rw [hfmt, hcons, parseFloatL_digit_head c cs hc, ← hcons]
      rw [parseDecL_all_digits _ hne hdig, ofDigitsL_natReprL]
      congr 1
      apply qnorm_val_inj (mkQ_isNorm _ _) hn
      rw [mkQ_val _ _ one_ne_zero]
      unfold Q.val
      rw [hden, Int.toNat_of_nonneg hnn]
    · rw [hfmt]
      intro c' hc'
      exact Or.inl (hdig c' hc')
    · exact ⟨c, cs, hfmt ▸ hcons, hc⟩
  · obtain ⟨k, rfl⟩ := Nat.exists_eq_succ_of_ne_zero hk0
    have hK1 : 1 ≤ k + 1 := Nat.succ_le_succ (Nat.zero_le k)
    have hfmt : fmtQnn q =
        natReprL ((mulPow10 q (k + 1)).num.toNat / 10 ^ (k + 1)) ++
          '.' :: fracDigitsL ((mulPow10 q (k + 1)).num.toNat % 10 ^ (k + 1)) (k + 1) := by
      simp [fmtQnn, hfind]
    set m := (mulPow10 q (k + 1)).num.toNat with hm
    set A := natReprL (m / 10 ^ (k + 1)) with hA
    set B := fracDigitsL (m % 10 ^ (k + 1)) (k + 1) with hB
    have hAne : A ≠ [] := natReprL_ne_nil _
    have hAdig : ∀ c ∈ A, isDigitC c = true := natReprL_all_digits _
    have hBdig : ∀ c ∈ B, isDigitC c = true := by
      intro c hc
      rw [hB] at hc
      unfold fracDigitsL at hc
      rcases List.mem_append.mp hc with h | h
      · rw [List.eq_of_mem_replicate h]
        decide
      · exact natReprL_all_digits _ _ h
    have hBlen : B.length = k + 1 := by
      rw [hB]
      unfold fracDigitsL
      rw [List.length_append, List.length_replicate]
      have hlt : m % 10 ^ (k + 1) < 10 ^ (k + 1) := Nat.mod_lt _ (by positivity)
      have := natReprL_length_le (m % 10 ^ (k + 1)) (k + 1) hK1 hlt
      omega
    have hofB : ofDigitsL B = m % 10 ^ (k + 1) := by
      rw [hB]
      unfold fracDigitsL
      rw [ofDigitsL_replicate_zero, ofDigitsL_natReprL]
    have hofA : ofDigitsL A = m / 10 ^ (k + 1) := by
      rw [hA, ofDigitsL_natReprL]
    obtain ⟨c, cs, hcons⟩ := List.exists_cons_of_ne_nil hAne
    have hc : isDigitC c = true := hAdig c (hcons ▸ List.mem_cons_self _ _)
    have hnum_nn : 0 ≤ (mulPow10 q (k + 1)).num :=
      mkQ_num_nonneg _ _ (by positivity)
    refine ⟨?_, ?_, ?_⟩
    · rw [hfmt]
      have hcons' : A ++ '.' :: B = c :: (cs ++ '.' :: B) := by rw [hcons]; rfl
      rw [hcons', parseFloatL_digit_head c _ hc, ← hcons']
      rw [parseDecL_with_dot A B hAne hAdig hBdig]
      have hsum : m / 10 ^ (k + 1) * 10 ^ (k + 1) + m % 10 ^ (k + 1) = m := by
        conv_rhs => rw [← Nat.div_add_mod m (10 ^ (k + 1))]
        ring
      rw [hofA, hofB, hBlen, hsum]
      congr 1
      apply qnorm_val_inj (mkQ_isNorm _ _) hn
      rw [mkQ_val _ _ (by positivity)]
      have hval10 : (mulPow10 q (k + 1)).val = q.val * ((10 ^ (k + 1) : Nat) : ℚ) :=
        mulPow10_val q hn.1 (k + 1)
      have hcast : ((m : Nat) : ℚ) = ((mulPow10 q (k + 1)).num : ℚ) := by
        rw [hm]
        exact_mod_cast congrArg (fun z : Int => (z : ℚ)) (Int.toNat_of_nonneg hnum_nn)
      have hvalm : (mulPow10 q (k + 1)).val = ((m : Nat) : ℚ) := by
        rw [den_one_val _ hden1]
        exact hcast.symm
      rw [hvalm] at hval10
      have h10 : ((10 ^ (k + 1) : Nat) : ℚ) ≠ 0 := by positivity
      rw [Int.cast_natCast, hval10, mul_div_assoc, div_self h10, mul_one]
    · rw [hfmt]
      intro c' hc'
      rcases List.mem_append.mp hc' with h | h
      · exact Or.inl (hAdig c' h)
      · rcases List.mem_cons.mp h with h | h
        · exact Or.inr h
        · exact Or.inl (hBdig c' h)
    · exact ⟨c, cs ++ '.' :: B, by rw [hfmt, hcons]; rfl, hc⟩

/-! ### Options and the option grammar (src/data.go)

Fields and their order mirror the Go struct.  `Format` is read by
`transform.go` and `imageproxy.go` (`opt.Format`) although the struct
declaration in the checked-in `data.go` does not list it; it is included
here so those files can be embedded, and it defaults to the empty string,
which is the only value the option grammar can produce. -/

structure Options where
  Width : Q := ⟨0, 1⟩
  Height : Q := ⟨0, 1⟩
  Fit : Bool := false
  Rotate : Int := 0
  FlipVertical : Bool := false
  FlipHorizontal : Bool := false
  Quality : Int := 0
  Signature : String := ""
  ScaleUp : Bool := false
  CropWidth : Int := 0
  CropHeight : Int := 0
  CropX : Int := 0
  CropY : Int := 0
  Format : String := ""
  deriving DecidableEq, Repr

/-- Model of `Options.transform()` (src/data.go:128-131): whether `o`
includes transformation options.  Float comparisons `!= 0` test the
numerator of the exact value. -/
def Options.transform (o : Options) : Bool :=
  o.Width.num ≠ 0 || o.Height.num ≠ 0 || o.Rotate ≠ 0 || o.FlipHorizontal || o.FlipVertical ||
    (o.CropHeight ≠ 0 && o.CropWidth ≠ 0)

/-- Model of `Options.String()` (src/data.go:86-123): the first token is
always `Width x Height`, then one token per set field, in declaration
order, each preceded by a comma. -/
def optionsString (o : Options) : List Char :=
  fmtQ o.Width ++ 'x' :: fmtQ o.Height ++
    (if o.Fit then ',' :: "fit".data else []) ++
    (if o.Rotate ≠ 0 then ',' :: 'r' :: intReprL o.Rotate else []) ++
    (if o.FlipVertical then ',' :: "fv".data else []) ++
    (if o.FlipHorizontal then ',' :: "fh".data else []) ++
    (if o.Quality ≠ 0 then ',' :: 'q' :: intReprL o.Quality else []) ++
    (if o.Signature ≠ "" then ',' :: 's' :: o.Signature.data else []) ++
    (if o.ScaleUp then ',' :: "scaleUp".data else []) ++
    (if o.CropWidth ≠ 0 then ',' :: 'c' :: 'w' :: intReprL o.CropWidth else []) ++
    (if o.CropHeight ≠ 0 then ',' :: 'c' :: 'h' :: intReprL o.CropHeight else []) ++
    (if o.CropX ≠ 0 then ',' :: 'c' :: 'x' :: intReprL o.CropX else []) ++
    (if o.CropY ≠ 0 then ',' :: 'c' :: 'y' :: intReprL o.CropY else [])

/-- `Options.String()` as a Lean `String`. -/
def Options.goString (o : Options) : String := String.mk (optionsString o)

/-- Model of `strings.Split(s, ",")`. -/
def splitOnComma : List Char → List (List Char)
  | [] => [[]]
  | c :: rest =>
      if c = ',' then [] :: splitOnComma rest
      else
        match splitOnComma rest with
        | [] => [[c]]
        | t :: ts => (c :: t) :: ts

/-- One iteration of the `switch` in `ParseOptions` (src/data.go:243-288),
applied to a single comma-separated token.  Case order follows the
source.  `strconv` failures yield the zero value, as in Go. -/
def applyOpt (o : Options) (t : List Char) : Options :=
  if t = [] then o
  else if t = "fit".data then { o with Fit := true }
  else if t = "fv".data then { o with FlipVertical := true }
  else if t = "fh".data then { o with FlipHorizontal := true }
  else if t = "scaleUp".data then { o with ScaleUp := true }
  else if ("r".data).isPrefixOf t then { o with Rotate := (parseIntL (t.drop 1)).getD 0 }
  else if ("q".data).isPrefixOf t then { o with Quality := (parseIntL (t.drop 1)).getD 0 }
  else if ("s".data).isPrefixOf t then { o with Signature := String.mk (t.drop 1) }
  else if ("ch".data).isPrefixOf t then { o with CropHeight := (parseIntL (t.drop 2)).getD 0 }
  else if ("cw".data).isPrefixOf t then { o with CropWidth := (parseIntL (t.drop 2)).getD 0 }
  else if ("cx".data).isPrefixOf t then { o with CropX := (parseIntL (t.drop 2)).getD 0 }
  else if ("cy".data).isPrefixOf t then { o with CropY := (parseIntL (t.drop 2)).getD 0 }
  else if t.contains 'x' then
    let w := t.takeWhile (fun c => c ≠ 'x')
    let h := t.drop (w.length + 1)
    let o1 := if w ≠ [] then { o with Width := (parseFloatL w).getD ⟨0, 1⟩ } else o
    if h ≠ [] then { o1 with Height := (parseFloatL h).getD ⟨0, 1⟩ } else o1
  else
    match parseFloatL t with
    | some s => { o with Width := s, Height := s }
    | none => o

/-- Model of `ParseOptions` (src/data.go:240-292) on raw characters. -/
def parseOptionsData (s : List Char) : Options :=
  (splitOnComma s).foldl applyOpt {}

/-- Model of `ParseOptions`. -/
def ParseOptions (s : String) : Options := parseOptionsData s.data

theorem splitOnComma_no_comma : ∀ (t : List Char), (∀ c ∈ t, c ≠ ',') →
    splitOnComma t = [t] := by
  intro t
  induction t with
  | nil => intro _; rfl
  | cons c cs ih =>
    intro h
    unfold splitOnComma
    rw [if_neg (h c (List.mem_cons_self _ _))]
    rw [ih (fun x hx => h x (List.mem_cons_of_mem _ hx))]

theorem splitOnComma_cons (c : Char) (cs : List Char) :
    splitOnComma (c :: cs) =
      if c = ',' then [] :: splitOnComma cs
      else
        match splitOnComma cs with
        | [] => [[c]]
        | t :: ts => (c :: t) :: ts := rfl

theorem splitOnComma_append : ∀ (t rest : List Char), (∀ c ∈ t, c ≠ ',') →
    splitOnComma (t ++ ',' :: rest) = t :: splitOnComma rest := by
  intro t
  induction t with
  | nil =>
    intro rest _
    simp [splitOnComma]
  | cons c cs ih =>
    intro rest h
    rw [List.cons_append, splitOnComma_cons, if_neg (h c (List.mem_cons_self _ _))]
    rw [ih rest (fun x hx => h x (List.mem_cons_of_mem _ hx))]

/-- Join tail tokens back with leading commas (the shape of everything
`Options.String` writes after the size token). -/
def joinTailTokens (ts : List (List Char)) : List Char :=
  ts.foldr (fun t acc => ',' :: (t ++ acc)) []

theorem joinTailTokens_append (a b : List (List Char)) :
    joinTailTokens (a ++ b) = joinTailTokens a ++ joinTailTokens b := by
  induction a with
  | nil => rfl
  | cons t ts ih =>
    simp only [joinTailTokens, List.cons_append, List.foldr_cons] at *
    rw [ih]
    simp

theorem splitOnComma_join (t0 : List Char) (h0 : ∀ c ∈ t0, c ≠ ',') :
    ∀ (ts : List (List Char)), (∀ t ∈ ts, ∀ c ∈ t, c ≠ ',') →
    splitOnComma (t0 ++ joinTailTokens ts) = t0 :: ts := by
  intro ts
  induction ts generalizing t0 h0 with
  | nil =>
    intro _
    simp only [joinTailTokens, List.foldr_nil, List.append_nil]
    exact splitOnComma_no_comma t0 h0
  | cons t ts' ih =>
    intro hts
    simp only [joinTailTokens, List.foldr_cons]
    rw [splitOnComma_append t0 _ h0]
    have h := ih t (hts t (List.mem_cons_self _ _))
      (fun u hu c hc => hts u (List.mem_cons_of_mem _ hu) c hc)
    exact congrArg (List.cons t0) h

/-- The conditional tail tokens written by `Options.String`, in source
order, without their leading commas. -/
def optTokensTail (o : Options) : List (List Char) :=
  (if o.Fit then ["fit".data] else []) ++
  (if o.Rotate ≠ 0 then ['r' :: intReprL o.Rotate] else []) ++
  (if o.FlipVertical then ["fv".data] else []) ++
  (if o.FlipHorizontal then ["fh".data] else []) ++
  (if o.Quality ≠ 0 then ['q' :: intReprL o.Quality] else []) ++
  (if o.Signature ≠ "" then ['s' :: o.Signature.data] else []) ++
  (if o.ScaleUp then ["scaleUp".data] else []) ++
  (if o.CropWidth ≠ 0 then ['c' :: 'w' :: intReprL o.CropWidth] else []) ++
  (if o.CropHeight ≠ 0 then ['c' :: 'h' :: intReprL o.CropHeight] else []) ++
  (if o.CropX ≠ 0 then ['c' :: 'x' :: intReprL o.CropX] else []) ++
  (if o.CropY ≠ 0 then ['c' :: 'y' :: intReprL o.CropY] else [])

theorem joinTailTokens_single (c : Prop) [Decidable c] (tok : List Char) :
    joinTailTokens (if c then [tok] else []) = if c then ',' :: tok else [] := by
  by_cases h : c <;> simp [h, joinTailTokens]

theorem optionsString_eq_join (o : Options) :
    optionsString o =
      (fmtQ o.Width ++ 'x' :: fmtQ o.Height) ++ joinTailTokens (optTokensTail o) := by
  unfold optionsString optTokensTail
  simp only [joinTailTokens_append, joinTailTokens_single, List.append_assoc, List.cons_append]

theorem ne_of_digitC {c a : Char} (h : isDigitC c = true) (ha : isDigitC a = false) : c ≠ a := by
  intro he
  rw [he, ha] at h
  exact absurd h (by simp)

theorem isPrefixOf_cons_ne (a c : Char) (h : ¬a = c) (pre rest : List Char) :
    ¬((a :: pre).isPrefixOf (c :: rest) = true) := by
  simp [List.isPrefixOf, h]

theorem applyOpt_fit (s : Options) : applyOpt s "fit".data = { s with Fit := true } := rfl

theorem applyOpt_fv (s : Options) : applyOpt s "fv".data = { s with FlipVertical := true } := rfl

theorem applyOpt_fh (s : Options) : applyOpt s "fh".data = { s with FlipHorizontal := true } := rfl

theorem applyOpt_scaleUp (s : Options) :
    applyOpt s "scaleUp".data = { s with ScaleUp := true } := rfl

theorem applyOpt_rotate (s : Options) (n : Int) :
    applyOpt s ('r' :: intReprL n) = { s with Rotate := n } := by
  unfold applyOpt
  rw [if_neg (by simp), if_neg (by simp), if_neg (by simp), if_neg (by simp), if_neg (by simp)]
  rw [if_pos (by simp [List.isPrefixOf])]
  rw [List.drop_one, List.tail_cons, parseIntL_intReprL]
  rfl

theorem applyOpt_quality (s : Options) (n : Int) :
    applyOpt s ('q' :: intReprL n) = { s with Quality := n } := by
  unfold applyOpt
  rw [if_neg (by simp), if_neg (by simp), if_neg (by simp), if_neg (by simp), if_neg (by simp)]
  rw [if_neg (isPrefixOf_cons_ne _ _ (by decide) _ _)]
  rw [if_pos (by simp [List.isPrefixOf])]
  rw [List.drop_one, List.tail_cons, parseIntL_intReprL]
  rfl

theorem applyOpt_sig (s : Options) (sig : String) (hnc : sig.data ≠ "caleUp".data) :
    applyOpt s ('s' :: sig.data) = { s with Signature := sig } := by
  unfold applyOpt
  rw [if_neg (by simp), if_neg (by simp), if_neg (by simp), if_neg (by simp)]
  rw [if_neg (by simpa using hnc)]
  rw [if_neg (isPrefixOf_cons_ne _ _ (by decide) _ _)]
  rw [if_neg (isPrefixOf_cons_ne _ _ (by decide) _ _)]
  rw [if_pos (by simp [List.isPrefixOf])]
  rw [List.drop_one, List.tail_cons]

theorem applyOpt_cw (s : Options) (n : Int) :
    applyOpt s ('c' :: 'w' :: intReprL n) = { s with CropWidth := n } := by
  unfold applyOpt
  rw [if_neg (by simp), if_neg (by simp), if_neg (by simp), if_neg (by simp), if_neg (by simp)]
  rw [if_neg (isPrefixOf_cons_ne _ _ (by decide) _ _)]
  rw [if_neg (isPrefixOf_cons_ne _ _ (by decide) _ _)]
  rw [if_neg (isPrefixOf_cons_ne _ _ (by decide) _ _)]
  rw [if_neg (by simp [List.isPrefixOf])]
  rw [if_pos (by simp [List.isPrefixOf])]
  rw [show ('c' :: 'w' :: intReprL n).drop 2 = intReprL n from rfl, parseIntL_intReprL]
  rfl

theorem applyOpt_ch (s : Options) (n : Int) :
    applyOpt s ('c' :: 'h' :: intReprL n) = { s with CropHeight := n } := by
  unfold applyOpt
  rw [if_neg (by simp), if_neg (by simp), if_neg (by simp), if_neg (by simp), if_neg (by simp)]
  rw [if_neg (isPrefixOf_cons_ne _ _ (by decide) _ _)]
  rw [if_neg (isPrefixOf_cons_ne _ _ (by decide) _ _)]
  rw [if_neg (isPrefixOf_cons_ne _ _ (by decide) _ _)]
  rw [if_pos (by simp [List.isPrefixOf])]
  rw [show ('c' :: 'h' :: intReprL n).drop 2 = intReprL n from rfl, parseIntL_intReprL]
  rfl

theorem applyOpt_cx (s : Options) (n : Int) :
    applyOpt s ('c' :: 'x' :: intReprL n) = { s with CropX := n } := by
  unfold applyOpt
  rw [if_neg (by simp), if_neg (by simp), if_neg (by simp), if_neg (by simp), if_neg (by simp)]
  rw [if_neg (isPrefixOf_cons_ne _ _ (by decide) _ _)]
  rw [if_neg (isPrefixOf_cons_ne _ _ (by decide) _ _)]
  rw [if_neg (isPrefixOf_cons_ne _ _ (by decide) _ _)]
  rw [if_neg (by simp [List.isPrefixOf])]
  rw [if_neg (by simp [List.isPrefixOf])]
  rw [if_pos (by simp [List.isPrefixOf])]
  rw [show ('c' :: 'x' :: intReprL n).drop 2 = intReprL n from rfl, parseIntL_intReprL]
  rfl

theorem applyOpt_cy (s : Options) (n : Int) :
    applyOpt s ('c' :: 'y' :: intReprL n) = { s with CropY := n } := by
  unfold applyOpt
  rw [if_neg (by simp), if_neg (by simp), if_neg (by simp), if_neg (by simp), if_neg (by simp)]
  rw [if_neg (isPrefixOf_cons_ne _ _ (by decide) _ _)]
  rw [if_neg (isPrefixOf_cons_ne _ _ (by decide) _ _)]
  rw [if_neg (isPrefixOf_cons_ne _ _ (by decide) _ _)]
  rw [if_neg (by simp [List.isPrefixOf])]
  rw [if_neg (by simp [List.isPrefixOf])]
  rw [if_neg (by simp [List.isPrefixOf])]
  rw [if_pos (by simp [List.isPrefixOf])]
  rw [show ('c' :: 'y' :: intReprL n).drop 2 = intReprL n from rfl, parseIntL_intReprL]
  rfl

theorem fmtQ_of_nonneg (q : Q) (hq : 0 ≤ q.num) : fmtQ q = fmtQnn q := by
  unfold fmtQ
  rw [if_neg (not_lt.mpr hq)]

/-- A float value the option grammar can produce: normalised, nonnegative,
with a finite decimal expansion (every Go float64 value has one). -/
def canonicalQ (q : Q) : Prop := q.isNorm ∧ 0 ≤ q.num ∧ ∃ j, (mulPow10 q j).den = 1

theorem applyOpt_size (s : Options) (w h : Q) (hw : canonicalQ w) (hh : canonicalQ h) :
    applyOpt s (fmtQ w ++ 'x' :: fmtQ h) = { s with Width := w, Height := h } := by
  obtain ⟨hwn, hwnn, hwdec⟩ := hw
  obtain ⟨hhn, hhnn, hhdec⟩ := hh
  obtain ⟨hwparse, hwchars, c, cs, hwcons, hcdig⟩ := fmtQnn_spec w hwn hwnn hwdec
  obtain ⟨hhparse, hhchars, hc2⟩ := fmtQnn_spec h hhn hhnn hhdec
  rw [fmtQ_of_nonneg w hwnn, fmtQ_of_nonneg h hhnn]
  set A := fmtQnn w with hAdef
  set B := fmtQnn h with hBdef
  have hAne : A ≠ [] := by rw [hwcons]; simp
  have hBne : B ≠ [] := by
    obtain ⟨c2, cs2, hcons2, _⟩ := hc2
    rw [hcons2]
    simp
  have hne_f : c ≠ 'f' := ne_of_digitC hcdig (by decide)
  have hne_s : c ≠ 's' := ne_of_digitC hcdig (by decide)
  have hne_r : c ≠ 'r' := ne_of_digitC hcdig (by decide)
  have hne_q : c ≠ 'q' := ne_of_digitC hcdig (by decide)
  have hne_c : c ≠ 'c' := ne_of_digitC hcdig (by decide)
  have hAnox : ∀ x ∈ A, (fun ch => decide (ch ≠ 'x')) x = true := by
    intro x hx
    apply decide_eq_true
    rcases hwchars x hx with hd | hdot
    · exact ne_of_digitC hd (by decide)
    · rw [hdot]; decide
  have hcons' : A ++ 'x' :: B = c :: (cs ++ 'x' :: B) := by rw [hwcons]; rfl
  have htake : (A ++ 'x' :: B).takeWhile (fun ch => decide (ch ≠ 'x')) = A :=
    takeWhile_append_stop A 'x' B hAnox (by decide)
  have hdrop : (A ++ 'x' :: B).drop (A.length + 1) = B := by
    have : A ++ 'x' :: B = (A ++ ['x']) ++ B := by simp
    rw [this]
    have hlen : (A ++ ['x']).length = A.length + 1 := by simp
    rw [← hlen, List.drop_left]
  unfold applyOpt
  rw [hcons']
  rw [if_neg (by simp), if_neg (by simp [hne_f]), if_neg (by simp [hne_f]),
    if_neg (by simp [hne_f]), if_neg (by simp [hne_s])]
  rw [if_neg (isPrefixOf_cons_ne _ _ (Ne.symm hne_r) _ _),
    if_neg (isPrefixOf_cons_ne _ _ (Ne.symm hne_q) _ _),
    if_neg (isPrefixOf_cons_ne _ _ (Ne.symm hne_s) _ _),
    if_neg (isPrefixOf_cons_ne _ _ (Ne.symm hne_c) _ _),
    if_neg (isPrefixOf_cons_ne _ _ (Ne.symm hne_c) _ _),
    if_neg (isPrefixOf_cons_ne _ _ (Ne.symm hne_c) _ _),
    if_neg (isPrefixOf_cons_ne _ _ (Ne.symm hne_c) _ _)]
  rw [if_pos (by rw [← hcons']; simp [List.contains, List.elem_iff])]
  rw [← hcons']
  simp only [htake, hdrop]
  rw [if_pos hAne]
  have hwp : parseFloatL A = some w := hwparse
  have hhp : parseFloatL B = some h := hhparse
  rw [hwp]
  simp only [Option.getD_some]
  rw [if_pos hBne, hhp]
  rfl

/-- Characters of the URL-safe base64 alphabet, plus padding. -/
def isBase64UrlC (c : Char) : Bool :=
  (65 ≤ c.toNat && c.toNat ≤ 90) || (97 ≤ c.toNat && c.toNat ≤ 122) ||
    isDigitC c || c = '-' || c = '_' || c = '='

theorem ne_of_base64 {c a : Char} (h : isBase64UrlC c = true) (ha : isBase64UrlC a = false) :
    c ≠ a := by
  intro he
  rw [he, ha] at h
  exact absurd h (by simp)

theorem intReprL_chars (i : Int) : ∀ c ∈ intReprL i, isDigitC c = true ∨ c = '-' := by
  unfold intReprL
  by_cases hneg : i < 0
  · rw [if_pos hneg]
    intro c hc
    rcases List.mem_cons.mp hc with h | h
    · exact Or.inr h
    · exact Or.inl (natReprL_all_digits _ _ h)
  · rw [if_neg hneg]
    intro c hc
    exact Or.inl (natReprL_all_digits _ _ hc)

theorem mem_ite_single {c : Prop} [Decidable c] {tok t : List Char}
    (h : t ∈ (if c then [tok] else [])) : t = tok := by
  by_cases hc : c
  · rw [if_pos hc] at h
    simpa using h
  · rw [if_neg hc] at h
    simp at h

/-- The Options values the grammar can denote, as constrained by the spec:
nonnegative decimal Width/Height, Quality between 0 and 100, a URL-safe
base64 Signature, and no field the grammar cannot set. -/
def canonicalOptions (o : Options) : Prop :=
  canonicalQ o.Width ∧ canonicalQ o.Height ∧
    0 ≤ o.Quality ∧ o.Quality ≤ 100 ∧
    (∀ c ∈ o.Signature.data, isBase64UrlC c = true) ∧
    o.Format = ""

theorem foldl_if_single (s : Options) (c : Prop) [Decidable c] (tok : List Char) :
    List.foldl applyOpt s (if c then [tok] else []) = if c then applyOpt s tok else s := by
  by_cases h : c <;> simp [h]

theorem optTokensTail_no_comma (o : Options)
    (hsigc : ∀ c ∈ o.Signature.data, isBase64UrlC c = true) :
    ∀ t ∈ optTokensTail o, ∀ c ∈ t, c ≠ ',' := by
  intro t ht
  simp only [optTokensTail, List.mem_append] at ht
  have hint : ∀ (i : Int), ∀ c ∈ intReprL i, c ≠ ',' := fun i c hc => by
    rcases intReprL_chars i c hc with h | h
    · exact ne_of_digitC h (by decide)
    · rw [h]; decide
  rcases ht with ((((((((((ht | ht) | ht) | ht) | ht) | ht) | ht) | ht) | ht) | ht) | ht) <;>
    rw [mem_ite_single ht] <;> intro c hc
  · intro heq
    rw [heq] at hc
    revert hc
    decide
  · rcases List.mem_cons.mp hc with h | h
    · rw [h]; decide
    · exact hint _ _ h
  · intro heq
    rw [heq] at hc
    revert hc
    decide
  · intro heq
    rw [heq] at hc
    revert hc
    decide
  · rcases List.mem_cons.mp hc with h | h
    · rw [h]; decide
    · exact hint _ _ h
  · rcases List.mem_cons.mp hc with h | h
    · rw [h]; decide
    · exact ne_of_base64 (hsigc c h) (by decide)
  · intro heq
    rw [heq] at hc
    revert hc
    decide
  · rcases List.mem_cons.mp hc with h | h
    · rw [h]; decide
    · rcases List.mem_cons.mp h with h' | h'
      · rw [h']; decide
      · exact hint _ _ h'
  · rcases List.mem_cons.mp hc with h | h
    · rw [h]; decide
    · rcases List.mem_cons.mp h with h' | h'
      · rw [h']; decide
      · exact hint _ _ h'
  · rcases List.mem_cons.mp hc with h | h
    · rw [h]; decide
    · rcases List.mem_cons.mp h with h' | h'
      · rw [h']; decide
      · exact hint _ _ h'
  · rcases List.mem_cons.mp hc with h | h
    · rw [h]; decide
    · rcases List.mem_cons.mp h with h' | h'
      · rw [h']; decide
      · exact hint _ _ h'

theorem stringData_inj {a b : String} (h : a.data = b.data) : a = b := by
  cases a
  cases b
  exact congrArg String.mk h

theorem parseOptions_roundtrip (o : Options) (hcan : canonicalOptions o)
    (hsig : o.Signature ≠ "caleUp") :
    ParseOptions (Options.goString o) = o := by
  obtain ⟨hW, hH, hQ1, hQ2, hsigc, hFmt⟩ := hcan
  have hW' := hW
  have hH' := hH
  obtain ⟨hWn, hWnn, hWdec⟩ := hW
  obtain ⟨hHn, hHnn, hHdec⟩ := hH
  obtain ⟨hwparse, hwchars, cW, csW, hWcons, hWdig⟩ := fmtQnn_spec o.Width hWn hWnn hWdec
  obtain ⟨hhparse, hhchars, hhhead⟩ := fmtQnn_spec o.Height hHn hHnn hHdec
  have ht0 : ∀ c ∈ fmtQ o.Width ++ 'x' :: fmtQ o.Height, c ≠ ',' := by
    rw [fmtQ_of_nonneg _ hWnn, fmtQ_of_nonneg _ hHnn]
    intro c hc
    rcases List.mem_append.mp hc with h | h
    · rcases hwchars c h with hd | hd
      · exact ne_of_digitC hd (by decide)
      · rw [hd]; decide
    · rcases List.mem_cons.mp h with h' | h'
      · rw [h']; decide
      · rcases hhchars c h' with hd | hd
        · exact ne_of_digitC hd (by decide)
        · rw [hd]; decide
  show parseOptionsData (optionsString o) = o
  rw [optionsString_eq_join]
  unfold parseOptionsData
  rw [splitOnComma_join _ ht0 _ (optTokensTail_no_comma o hsigc)]
  rw [List.foldl_cons, applyOpt_size ({} : Options) o.Width o.Height hW' hH']
  show List.foldl applyOpt
    ⟨o.Width, o.Height, false, 0, false, false, 0, "", false, 0, 0, 0, 0, ""⟩
    (optTokensTail o) = o
  have e1 : List.foldl applyOpt
      ⟨o.Width, o.Height, false, 0, false, false, 0, "", false, 0, 0, 0, 0, ""⟩
      (if o.Fit = true then ["fit".data] else []) =
      ⟨o.Width, o.Height, o.Fit, 0, false, false, 0, "", false, 0, 0, 0, 0, ""⟩ := by
    rw [foldl_if_single]
    by_cases hf : o.Fit = true
    · rw [if_pos hf, applyOpt_fit, hf]
    · have hf' : o.Fit = false := by simpa using hf
      rw [if_neg hf, hf']
  have e2 : List.foldl applyOpt
      ⟨o.Width, o.Height, o.Fit, 0, false, false, 0, "", false, 0, 0, 0, 0, ""⟩
      (if o.Rotate ≠ 0 then ['r' :: intReprL o.Rotate] else []) =
      ⟨o.Width, o.Height, o.Fit, o.Rotate, false, false, 0, "", false, 0, 0, 0, 0, ""⟩ := by
    rw [foldl_if_single]
    by_cases hr : o.Rotate ≠ 0
    · rw [if_pos hr, applyOpt_rotate]
    · have hr' : o.Rotate = 0 := by simpa using hr
      rw [if_neg hr, hr']
  have e3 : List.foldl applyOpt
      ⟨o.Width, o.Height, o.Fit, o.Rotate, false, false, 0, "", false, 0, 0, 0, 0, ""⟩
      (if o.FlipVertical = true then ["fv".data] else []) =
      ⟨o.Width, o.Height, o.Fit, o.Rotate, o.FlipVertical, false, 0, "", false, 0, 0, 0, 0, ""⟩ := by
    rw [foldl_if_single]
    by_cases hf : o.FlipVertical = true
    · rw [if_pos hf, applyOpt_fv, hf]
    · have hf' : o.FlipVertical = false := by simpa using hf
      rw [if_neg hf, hf']
  have e4 : List.foldl applyOpt
      ⟨o.Width, o.Height, o.Fit, o.Rotate, o.FlipVertical, false, 0, "", false, 0, 0, 0, 0, ""⟩
      (if o.FlipHorizontal = true then ["fh".data] else []) =
      ⟨o.Width, o.Height, o.Fit, o.Rotate, o.FlipVertical, o.FlipHorizontal, 0, "", false,
        0, 0, 0, 0, ""⟩ := by
    rw [foldl_if_single]
    by_cases hf : o.FlipHorizontal = true
    · rw [if_pos hf, applyOpt_fh, hf]
    · have hf' : o.FlipHorizontal = false := by simpa using hf
      rw [if_neg hf, hf']
  have e5 : List.foldl applyOpt
      ⟨o.Width, o.Height, o.Fit, o.Rotate, o.FlipVertical, o.FlipHorizontal, 0, "", false,
        0, 0, 0, 0, ""⟩
      (if o.Quality ≠ 0 then ['q' :: intReprL o.Quality] else []) =
      ⟨o.Width, o.Height, o.Fit, o.Rotate, o.FlipVertical, o.FlipHorizontal, o.Quality, "",
        false, 0, 0, 0, 0, ""⟩ := by
    rw [foldl_if_single]
    by_cases hq : o.Quality ≠ 0
    · rw [if_pos hq, applyOpt_quality]
    · have hq' : o.Quality = 0 := by simpa using hq
      rw [if_neg hq, hq']
  have e6 : List.foldl applyOpt
      ⟨o.Width, o.Height, o.Fit, o.Rotate, o.FlipVertical, o.FlipHorizontal, o.Quality, "",
        false, 0, 0, 0, 0, ""⟩
      (if o.Signature ≠ "" then ['s' :: o.Signature.data] else []) =
      ⟨o.Width, o.Height, o.Fit, o.Rotate, o.FlipVertical, o.FlipHorizontal, o.Quality,
        o.Signature, false, 0, 0, 0, 0, ""⟩ := by
    rw [foldl_if_single]
    by_cases hs : o.Signature ≠ ""
    · rw [if_pos hs, applyOpt_sig _ _ (fun hEq => hsig (stringData_inj hEq))]
    · have hs' : o.Signature = "" := by simpa using hs
      rw [if_neg hs, hs']
  have e7 : List.foldl applyOpt
      ⟨o.Width, o.Height, o.Fit, o.Rotate, o.FlipVertical, o.FlipHorizontal, o.Quality,
        o.Signature, false, 0, 0, 0, 0, ""⟩
      (if o.ScaleUp = true then ["scaleUp".data] else []) =
      ⟨o.Width, o.Height, o.Fit, o.Rotate, o.FlipVertical, o.FlipHorizontal, o.Quality,
        o.Signature, o.ScaleUp, 0, 0, 0, 0, ""⟩ := by
    rw [foldl_if_single]
    by_cases hs : o.ScaleUp = true
    · rw [if_pos hs, applyOpt_scaleUp, hs]
    · have hs' : o.ScaleUp = false := by simpa using hs
      rw [if_neg hs, hs']
  have e8 : List.foldl applyOpt
      ⟨o.Width, o.Height, o.Fit, o.Rotate, o.FlipVertical, o.FlipHorizontal, o.Quality,
        o.Signature, o.ScaleUp, 0, 0, 0, 0, ""⟩
      (if o.CropWidth ≠ 0 then ['c' :: 'w' :: intReprL o.CropWidth] else []) =
      ⟨o.Width, o.Height, o.Fit, o.Rotate, o.FlipVertical, o.FlipHorizontal, o.Quality,
        o.Signature, o.ScaleUp, o.CropWidth, 0, 0, 0, ""⟩ := by
    rw [foldl_if_single]
    by_cases hc : o.CropWidth ≠ 0
    · rw [if_pos hc, applyOpt_cw]
    · have hc' : o.CropWidth = 0 := by simpa using hc
      rw [if_neg hc, hc']
  have e9 : List.foldl applyOpt
      ⟨o.Width, o.Height, o.Fit, o.Rotate, o.FlipVertical, o.FlipHorizontal, o.Quality,
        o.Signature, o.ScaleUp, o.CropWidth, 0, 0, 0, ""⟩
      (if o.CropHeight ≠ 0 then ['c' :: 'h' :: intReprL o.CropHeight] else []) =
      ⟨o.Width, o.Height, o.Fit, o.Rotate, o.FlipVertical, o.FlipHorizontal, o.Quality,
        o.Signature, o.ScaleUp, o.CropWidth, o.CropHeight, 0, 0, ""⟩ := by
    rw [foldl_if_single]
    by_cases hc : o.CropHeight ≠ 0
    · rw [if_pos hc, applyOpt_ch]
    · have hc' : o.CropHeight = 0 := by simpa using hc
      rw [if_neg hc, hc']
  have e10 : List.foldl applyOpt
      ⟨o.Width, o.Height, o.Fit, o.Rotate, o.FlipVertical, o.FlipHorizontal, o.Quality,
        o.Signature, o.ScaleUp, o.CropWidth, o.CropHeight, 0, 0, ""⟩
      (if o.CropX ≠ 0 then ['c' :: 'x' :: intReprL o.CropX] else []) =
      ⟨o.Width, o.Height, o.Fit, o.Rotate, o.FlipVertical, o.FlipHorizontal, o.Quality,
        o.Signature, o.ScaleUp, o.CropWidth, o.CropHeight, o.CropX, 0, ""⟩ := by
    rw [foldl_if_single]
    by_cases hc : o.CropX ≠ 0
    · rw [if_pos hc, applyOpt_cx]
    · have hc' : o.CropX = 0 := by simpa using hc
      rw [if_neg hc, hc']
  have e11 : List.foldl applyOpt
      ⟨o.Width, o.Height, o.Fit, o.Rotate, o.FlipVertical, o.FlipHorizontal, o.Quality,
        o.Signature, o.ScaleUp, o.CropWidth, o.CropHeight, o.CropX, 0, ""⟩
      (if o.CropY ≠ 0 then ['c' :: 'y' :: intReprL o.CropY] else []) =
      ⟨o.Width, o.Height, o.Fit, o.Rotate, o.FlipVertical, o.FlipHorizontal, o.Quality,
        o.Signature, o.ScaleUp, o.CropWidth, o.CropHeight, o.CropX, o.CropY, ""⟩ := by
    rw [foldl_if_single]
    by_cases hc : o.CropY ≠ 0
    · rw [if_pos hc, applyOpt_cy]
    · have hc' : o.CropY = 0 := by simpa using hc
      rw [if_neg hc, hc']
  unfold optTokensTail
  rw [List.foldl_append, List.foldl_append, List.foldl_append, List.foldl_append,
    List.foldl_append, List.foldl_append, List.foldl_append, List.foldl_append,
    List.foldl_append, List.foldl_append]
  rw [e1, e2, e3, e4, e5, e6, e7, e8, e9, e10, e11]
  cases o
  simp only at hFmt
  rw [hFmt]

/-! ### Transformation engine (src/transform.go)

The `imaging` library and the image codecs are external collaborators;
they are abstracted as records of operations over an arbitrary image type
`α`.  The geometry computed by this repository (`evaluateFloat`,
`newSize`, `resizeParams`, `cropParams`) is embedded exactly. -/

/-- An image's bounds, as in Go's `image.Rectangle`. -/
structure GoRect where
  minX : Int
  minY : Int
  maxX : Int
  maxY : Int

/-- The operations of `disintegration/imaging` used by `transformImage`. -/
structure ImagingOps (α : Type) where
  bounds : α → GoRect
  crop : α → Int → Int → Int → Int → α
  fit : α → Int → Int → α
  resize : α → Int → Int → α
  thumbnail : α → Int → Int → α
  rotate90 : α → α
  rotate180 : α → α
  rotate270 : α → α
  flipV : α → α
  flipH : α → α

/-- Model of `evaluateFloat` (src/transform.go:155-163): fractions of
`max` in (0,1), absolute values otherwise, 0 for negatives.  Go's `int()`
conversion truncates toward zero. -/
def evaluateFloat (f : Q) (max : Int) : Int :=
  if Q.blt ⟨0, 1⟩ f && Q.blt f ⟨1, 1⟩ then (f.mulInt max).trunc
  else if Q.blt f ⟨0, 1⟩ then 0
  else f.trunc

/-- Model of `newSize` (src/transform.go:358-383): complete a requested
size against the original, preserving aspect ratio when one side is 0. -/
def newSize (newW newH orgW orgH : Int) : Except String (Int × Int) :=
  if newW > 0 && newH > 0 then .ok (newW, newH)
  else if orgW = 0 || orgH = 0 then .ok (orgW, orgH)
  else if newW = 0 && newH = 0 then .error "Width or Height (or both) must be greater than 0"
  else if newW = 0 then .ok (((qDivInt orgW orgH).mulInt newH).trunc, newH)
  else if newH = 0 then .ok (newW, ((qDivInt orgH orgW).mulInt newW).trunc)
  else .ok (newW, newH)

/-- The float comparison `newSize/orgSize > MaxScaleUp` of
src/transform.go:195, including the degenerate `orgSize = 0` cases where
Go's float division yields ±Inf (compares greater iff `newSize > 0`) or
NaN (never greater). -/
def scaleRatioGt (nsize osize : Int) (maxS : Q) : Bool :=
  if osize = 0 then decide (0 < nsize)
  else Q.blt maxS (qDivInt nsize osize)

/-- Model of `resizeParams` (src/transform.go:167-211).  `maxScaleUp`
stands for the package variable `MaxScaleUp`. -/
def resizeParams {α : Type} (M : ImagingOps α) (maxScaleUp : Q) (m : α) (opt : Options) :
    Int × Int × Bool :=
  let imgW := (M.bounds m).maxX - (M.bounds m).minX
  let imgH := (M.bounds m).maxY - (M.bounds m).minY
  let w0 := evaluateFloat opt.Width imgW
  let h0 := evaluateFloat opt.Height imgH
  let w1 := if !opt.ScaleUp && w0 > imgW then imgW else w0
  let h1 := if !opt.ScaleUp && h0 > imgH then imgH else h0
  match newSize w1 h1 imgW imgH with
  | .error _ => (0, 0, false)
  | .ok (nW, nH) =>
      let wh2 :=
        if opt.ScaleUp && scaleRatioGt (nW * nH) (imgW * imgH) maxScaleUp then (imgW, imgH)
        else (w1, h1)
      if (wh2.1 = imgW ∨ wh2.1 = 0) ∧ (wh2.2 = imgH ∨ wh2.2 = 0) then (0, 0, false)
      else (wh2.1, wh2.2, true)

/-- Model of `cropParams` (src/transform.go:214-258). -/
def cropParams {α : Type} (M : ImagingOps α) (m : α) (opt : Options) :
    Int × Int × Int × Int × Bool :=
  if opt.CropX = 0 ∧ opt.CropY = 0 ∧ opt.CropWidth = 0 ∧ opt.CropHeight = 0 then
    (0, 0, 0, 0, false)
  else
    let imgW := (M.bounds m).maxX - (M.bounds m).minX
    let imgH := (M.bounds m).maxY - (M.bounds m).minY
    let x0a := evaluateFloat (qOfInt (opt.CropX.natAbs : Int)) imgW
    let x0 := if opt.CropX < 0 then imgW - x0a else x0a
    let y0a := evaluateFloat (qOfInt (opt.CropY.natAbs : Int)) imgH
    let y0 := if opt.CropY < 0 then imgH - y0a else y0a
    let w0 := evaluateFloat (qOfInt opt.CropWidth) imgW
    let w := if w0 = 0 then imgW else w0
    let h0 := evaluateFloat (qOfInt opt.CropHeight) imgH
    let h := if h0 = 0 then imgH else h0
    if x0 = 0 ∧ y0 = 0 ∧ w = imgW ∧ h = imgH then (0, 0, 0, 0, false)
    else
      let x1 := if x0 + w > imgW then imgW else x0 + w
      let y1 := if y0 + h > imgH then imgH else y0 + h
      (x0, y0, x1, y1, true)

/-- The rotation normalisation of src/transform.go:337:
`float64(Rotate) - floor(Rotate/360)*360`, an integer in `[0, 360)`. -/
def normRotate (r : Int) : Int :=
  r - (qDivInt r 360).num.fdiv ((qDivInt r 360).den : Int) * 360

/-- Model of `transformImage` (src/transform.go:313-356): crop, resize
(fit / proportional resize / thumbnail), rotate, flip vertical then
horizontal. -/
def transformImage {α : Type} (M : ImagingOps α) (maxScaleUp : Q) (m : α) (opt : Options) : α :=
  let c := cropParams M m opt
  let m1 := if c.2.2.2.2 then M.crop m c.1 c.2.1 c.2.2.1 c.2.2.2.1 else m
  let r := resizeParams M maxScaleUp m1 opt
  let m2 :=
    if r.2.2 then
      if opt.Fit then M.fit m1 r.1 r.2.1
      else if r.1 = 0 ∨ r.2.1 = 0 then M.resize m1 r.1 r.2.1
      else M.thumbnail m1 r.1 r.2.1
    else m1
  let rot := normRotate opt.Rotate
  let m3 :=
    if rot = 90 then M.rotate90 m2
    else if rot = 180 then M.rotate180 m2
    else if rot = 270 then M.rotate270 m2
    else m2
  let m4 := if opt.FlipVertical then M.flipV m3 else m3
  if opt.FlipHorizontal then M.flipH m4 else m4

/-- The codec operations used by `Transform` (image registry, EXIF
reader, per-format encoders, streaming GIF transformer). -/
structure Codec (α : Type) where
  decode : List Nat → Except String (α × String)
  decodeConfig : List Nat → Except String (Int × Int)
  exifOrientation : List Nat → Options
  encodeJpeg : α → Int → Except String (List Nat)
  encodePng : α → Except String (List Nat)
  encodeTiff : α → Except String (List Nat)
  gifProcess : (α → α) → List Nat → Except String (List Nat)

/-- Model of `Transform` (src/transform.go:60-150).  Statsd calls
(`transformOpts`/`sendToStatsd`, timers, counters) and glog output are
side-effect only and omitted.  The EXIF pass reads at most `maxExifSize`
bytes of the input; that limit lives inside `Codec.exifOrientation`. -/
def Transform {α : Type} (M : ImagingOps α) (C : Codec α) (maxScaleUp : Q)
    (img : List Nat) (opt : Options) (_url : String) : Except String (List Nat) :=
  if !opt.transform then .ok img
  else
    match C.decode img with
    | .error e => .error e
    | .ok (m0, format0) =>
        let m1 :=
          if format0 = "jpeg" ∨ format0 = "tiff" then
            if (C.exifOrientation img).transform then
              transformImage M maxScaleUp m0 (C.exifOrientation img)
            else m0
          else m0
        let format1 := if format0 = "tiff" ∨ format0 = "webp" then "jpeg" else format0
        let format2 := if opt.Format ≠ "" then opt.Format else format1
        if format2 = "gif" then
          C.gifProcess (fun i => transformImage M maxScaleUp i opt) img
        else if format2 = "jpeg" then
          C.encodeJpeg (transformImage M maxScaleUp m1 opt)
            (if opt.Quality = 0 then 95 else opt.Quality)
        else if format2 = "png" then C.encodePng (transformImage M maxScaleUp m1 opt)
        else if format2 = "tiff" then C.encodeTiff (transformImage M maxScaleUp m1 opt)
        else .error ("unsupported format: " ++ format2)

/-! ### Bounded-size reader (src/unnamed/part_002, `LimitedReadCloser`)

The wrapped `io.ReadCloser` is modelled as a pending byte list plus a
closed flag; a `Read(p)` with `len(p) = pLen` returns
`min pLen (length pending)` bytes. -/

/-- The two counters of the Go struct: `N` (remaining budget) and
`Limit` (the original ceiling, quoted in the error message). -/
structure LimitedReadCloser where
  n : Int
  limit : Int
  deriving DecidableEq, Repr

/-- The wrapped stream. -/
structure GoReadCloser where
  pending : List Nat
  closed : Bool
  deriving DecidableEq, Repr

/-- Model of `NewLimitedReadCloser(rc, l)`: both counters start at `l`. -/
def NewLimitedReadCloser (l : Int) : LimitedReadCloser := ⟨l, l⟩

/-- The error text of the exhausted reader (fmt.Errorf in the source). -/
def tooLargeMsg (limit : Int) : String :=
  "http: response body too large. Max allowed: " ++ String.mk (intReprL limit) ++ " bytes"

/-- Model of `LimitedReadCloser.Read`: fail once the budget is spent,
otherwise clamp the buffer to the budget and read from the stream. -/
def LimitedReadCloser.read (l : LimitedReadCloser) (rc : GoReadCloser) (pLen : Nat) :
    Except String (List Nat) × LimitedReadCloser × GoReadCloser :=
  if l.n ≤ 0 then (.error (tooLargeMsg l.limit), l, rc)
  else
    let pLen' := if (pLen : Int) > l.n then l.n.toNat else pLen
    let chunk := rc.pending.take pLen'
    (.ok chunk, { l with n := l.n - chunk.length }, { rc with pending := rc.pending.drop pLen' })

/-- Model of the wrapped stream's `Close`. -/
def GoReadCloser.close (rc : GoReadCloser) : GoReadCloser := { rc with closed := true }

/-- Model of `LimitedReadCloser.Close`: delegate to the wrapped stream. -/
def LimitedReadCloser.close (_l : LimitedReadCloser) (rc : GoReadCloser) : GoReadCloser :=
  rc.close

/-- Total number of bytes yielded over a sequence of reads with the given
buffer sizes (errors yield nothing and reading continues). -/
def runReads (l : LimitedReadCloser) (rc : GoReadCloser) : List Nat → Nat
  | [] => 0
  | p :: ps =>
      match l.read rc p with
      | (.ok chunk, l', rc') => chunk.length + runReads l' rc' ps
      | (.error _, l', rc') => runReads l' rc' ps

theorem runReads_le : ∀ (ps : List Nat) (l : LimitedReadCloser) (rc : GoReadCloser),
    runReads l rc ps ≤ l.n.toNat := by
  intro ps
  induction ps with
  | nil => intro l rc; exact Nat.zero_le _
  | cons p ps ih =>
    intro l rc
    unfold runReads LimitedReadCloser.read
    by_cases h0 : l.n ≤ 0
    · rw [if_pos h0]
      simpa using ih l rc
    · rw [if_neg h0]
      simp only []
      have hpos : 0 < l.n := lt_of_not_ge (by simpa using h0)
      set pLen' := if (p : Int) > l.n then l.n.toNat else p with hplen
      set chunk := rc.pending.take pLen' with hchunk
      have hclen : chunk.length ≤ l.n.toNat := by
        have h1 : chunk.length ≤ pLen' := by
          rw [hchunk]
          simp [List.length_take]

        have h2 : pLen' ≤ l.n.toNat := by
          rw [hplen]
          by_cases hc : (p : Int) > l.n
          · rw [if_pos hc]
          · rw [if_neg hc]
            omega
        omega
      have := ih { l with n := l.n - chunk.length } { rc with pending := rc.pending.drop pLen' }
      simp only at this
      omega

/-! ### HMAC-SHA256 and URL-safe base64 (crypto/hmac, crypto/sha256,
encoding/base64 as used by `validSignature`) -/

/-- Truncate to 32 bits. -/
def w32 (x : Nat) : Nat := x % 4294967296

/-- 32-bit rotate right. -/
def rotr32 (x n : Nat) : Nat := w32 ((x >>> n) ||| (x <<< (32 - n)))

/-- The SHA-256 round constants. -/
def shaK : List Nat :=
  [
    1116352408, 1899447441, 3049323471, 3921009573, 961987163, 1508970993,
    2453635748, 2870763221, 3624381080, 310598401, 607225278, 1426881987,
    1925078388, 2162078206, 2614888103, 3248222580, 3835390401, 4022224774,
    264347078, 604807628, 770255983, 1249150122, 1555081692, 1996064986,
    2554220882, 2821834349, 2952996808, 3210313671, 3336571891, 3584528711,
    113926993, 338241895, 666307205, 773529912, 1294757372, 1396182291,
    1695183700, 1986661051, 2177026350, 2456956037, 2730485921, 2820302411,
    3259730800, 3345764771, 3516065817, 3600352804, 4094571909, 275423344,
    430227734, 506948616, 659060556, 883997877, 958139571, 1322822218,
    1537002063, 1747873779, 1955562222, 2024104815, 2227730452, 2361852424,
    2428436474, 2756734187, 3204031479, 3329325298]

/-- The SHA-256 initial hash state. -/
def shaH0 : List Nat :=
  [
    1779033703, 3144134277, 1013904242, 2773480762,
    1359893119, 2600822924, 528734635, 1541459225]

/-- Big-endian bytes of a 64-bit value. -/
def be64 (n : Nat) : List Nat :=
  [n >>> 56 % 256, n >>> 48 % 256, n >>> 40 % 256, n >>> 32 % 256,
   n >>> 24 % 256, n >>> 16 % 256, n >>> 8 % 256, n % 256]

/-- Big-endian bytes of a 32-bit word. -/
def be32 (n : Nat) : List Nat := [n >>> 24 % 256, n >>> 16 % 256, n >>> 8 % 256, n % 256]

/-- SHA-256 padding: a 0x80 byte, zeros to 56 mod 64, 64-bit bit length. -/
def sha256pad (msg : List Nat) : List Nat :=
  msg ++ 128 :: List.replicate ((120 - (msg.length + 1) % 64) % 64) 0 ++ be64 (8 * msg.length)

/-- Group bytes into big-endian 32-bit words. -/
def toWords : List Nat → List Nat
  | a :: b :: c :: d :: rest => (((a * 256 + b) * 256 + c) * 256 + d) :: toWords rest
  | _ => []

/-- Extend a 16-word block to the 64-word message schedule. -/
def extendWords (ws : List Nat) : List Nat :=
  (List.range 48).foldl
    (fun acc _ =>
      let i := acc.length
      let s0v := acc.getD (i - 15) 0
      let s1v := acc.getD (i - 2) 0
      let s0 := rotr32 s0v 7 ^^^ rotr32 s0v 18 ^^^ (s0v >>> 3)
      let s1 := rotr32 s1v 17 ^^^ rotr32 s1v 19 ^^^ (s1v >>> 10)
      acc ++ [w32 (s1 + acc.getD (i - 7) 0 + s0 + acc.getD (i - 16) 0)])
    ws

/-- One SHA-256 compression round over the 8-word state. -/
def shaRound (ws : List Nat) (st : List Nat) (i : Nat) : List Nat :=
  match st with
  | [a, b, c, d, e, f, g, hh] =>
      let s1 := rotr32 e 6 ^^^ rotr32 e 11 ^^^ rotr32 e 25
      let ch := (e &&& f) ^^^ ((4294967295 ^^^ e) &&& g)
      let t1 := w32 (hh + s1 + ch + shaK.getD i 0 + ws.getD i 0)
      let s0 := rotr32 a 2 ^^^ rotr32 a 13 ^^^ rotr32 a 22
      let maj := (a &&& b) ^^^ (a &&& c) ^^^ (b &&& c)
      let t2 := w32 (s0 + maj)
      [w32 (t1 + t2), a, b, c, w32 (d + t1), e, f, g]
  | other => other

/-- Compress one 16-word block into the running hash. -/
def shaCompress (h : List Nat) (block : List Nat) : List Nat :=
  let ws := extendWords block
  let st := (List.range 64).foldl (shaRound ws) h
  List.zipWith (fun x y => w32 (x + y)) h st

/-- SHA-256 of a byte string. -/
def sha256 (msg : List Nat) : List Nat :=
  let ws := toWords (sha256pad msg)
  let h := (List.range (ws.length / 16)).foldl
    (fun acc i => shaCompress acc ((ws.drop (16 * i)).take 16)) shaH0
  h.foldr (fun wrd acc => be32 wrd ++ acc) []

/-- HMAC-SHA256 (crypto/hmac with a SHA-256 block size of 64 bytes). -/
def hmacSha256 (key msg : List Nat) : List Nat :=
  let k0 := if key.length > 64 then sha256 key else key
  let kpad := k0 ++ List.replicate (64 - k0.length) 0
  sha256 ((kpad.map (fun b => b ^^^ 92)) ++ sha256 ((kpad.map (fun b => b ^^^ 54)) ++ msg))

/-- Value of a base64url alphabet character. -/
def b64val (c : Char) : Option Nat :=
  if 65 ≤ c.toNat ∧ c.toNat ≤ 90 then some (c.toNat - 65)
  else if 97 ≤ c.toNat ∧ c.toNat ≤ 122 then some (c.toNat - 71)
  else if 48 ≤ c.toNat ∧ c.toNat ≤ 57 then some (c.toNat + 4)
  else if c = '-' then some 62
  else if c = '_' then some 63
  else none

/-- Model of `base64.URLEncoding.DecodeString`: quanta of four
characters, padding only in the final quantum, non-alphabet characters
rejected.  Like Go's default (non-Strict) decoder, the unused trailing
bits of the last data character are IGNORED, not required to be zero.
(Go also skips \r and \n; signatures never contain them.) -/
def base64UrlDecode : List Char → Option (List Nat)
  | [] => some []
  | c1 :: c2 :: c3 :: c4 :: rest =>
      match b64val c1, b64val c2 with
      | some v1, some v2 =>
          if c3 = '=' then
            if c4 = '=' ∧ rest = [] then some [v1 * 4 + v2 / 16]
            else none
          else
            match b64val c3 with
            | some v3 =>
                if c4 = '=' then
                  if rest = [] then some [v1 * 4 + v2 / 16, v2 % 16 * 16 + v3 / 4]
                  else none
                else
                  match b64val c4 with
                  | some v4 =>
                      (base64UrlDecode rest).map
                        (fun bs => (v1 * 4 + v2 / 16) :: (v2 % 16 * 16 + v3 / 4) ::
                          (v3 % 4 * 64 + v4) :: bs)
                  | none => none
            | none => none
      | _, _ => none
  | _ => none

/-- A parsed remote URL, the fields `URL.String()` reassembles for the
URLs this service handles (no user info, opaque part, or fragment: the
`Request.URL` never carries a fragment). -/
structure GoURL where
  scheme : String
  host : String
  path : String
  rawQuery : String
  deriving DecidableEq, Repr

/-- Model of `URL.String()` for such URLs: query included, no fragment. -/
def GoURL.toGoString (u : GoURL) : String :=
  u.scheme ++ "://" ++ u.host ++ u.path ++ (if u.rawQuery ≠ "" then "?" ++ u.rawQuery else "")

/-- An imageproxy `Request` (src/data.go:296-300).  The original inbound
`http.Request` is represented by the one datum admission control reads
from it: the host of its parsed `Referer` header (`none` when the header
does not parse). -/
structure Request where
  url : GoURL
  options : Options
  originalRefererHost : Option String := none

/-- Bytes of an ASCII string (Go's `[]byte(s)`; URLs here are ASCII). -/
def strBytes (s : String) : List Nat := s.data.map Char.toNat

/-- Model of `validSignature` (src/imageproxy.go:857-875): pad the
request signature with `=` to a multiple of four, base64url-decode it,
and compare with the HMAC-SHA256 of the remote URL string.  `hmac.Equal`
is constant-time in Go; timing is outside this model, the comparison is
plain equality. -/
def validSignature (key : List Nat) (r : Request) : Bool :=
  let sig0 := r.options.Signature.data
  let m := sig0.length % 4
  let sig := if m ≠ 0 then sig0 ++ List.replicate (4 - m) '=' else sig0
  match base64UrlDecode sig with
  | none => false
  | some got => got == hmacSha256 key (strBytes r.url.toGoString)

/-! ### Access policy and its decision caches (src/imageproxy.go:691-875)

DNS is an external collaborator: the CNAME resolver and `net.LookupIP`
are passed as functions.  IPs are 16-byte lists (`To16` form); the
bounded LRU caches (gcache) are modelled as unbounded string lists,
since no claim concerns eviction. -/

/-- An IP whitelist entry (`ip.Range`), both ends inclusive. -/
structure IPRange where
  lo : List Nat
  hi : List Nat

/-- `bytes.Compare` on byte strings. -/
def bytesCmp : List Nat → List Nat → Ordering
  | [], [] => .eq
  | [], _ :: _ => .lt
  | _ :: _, [] => .gt
  | a :: as, b :: bs => if a < b then .lt else if b < a then .gt else bytesCmp as bs

/-- Model of `ip.Between` (src/ip/ip.go): inclusive byte-wise range test
(the nil / non-16-byte guard paths are outside this model). -/
def ipBetween (lo hi test : List Nat) : Bool :=
  bytesCmp test lo ≠ Ordering.lt && bytesCmp test hi ≠ Ordering.gt

/-- Model of `validIP`/`validIPBool` (src/imageproxy.go:765-788), with
`net.LookupIP` passed in. -/
def validIPBool (ranges : List IPRange) (h : String)
    (lookupIP : String → Except String (List (List Nat))) : Bool :=
  match lookupIP h with
  | .error _ => false
  | .ok ips => ips.any (fun hip => ranges.any (fun r => ipBetween r.lo r.hi hip))

/-- Model of `validHostSimple` (src/imageproxy.go:799-813). -/
def validHostSimple (hosts : List String) (h : String) : Bool :=
  if h.data.length = 0 then false
  else hosts.any (fun host => h.data == host.data ||
    ("*.".data.isPrefixOf host.data && (host.data.drop 2).isSuffixOf h.data))

/-- Model of `validHostWithCNAME`/`validHost`/`validHostBool`
(src/imageproxy.go:816-845), with the CNAME resolver passed in. -/
def validHostBool (hosts : List String) (u : GoURL) (cn : String → Except String String) : Bool :=
  if validHostSimple hosts u.host then true
  else
    match cn u.host with
    | .ok name => validHostSimple hosts name
    | .error _ => false

/-- Model of `validReferrer` (src/imageproxy.go:848-855): the host of the
parsed `Referer` header checked against the list (`none` = parse error =
deny). -/
def validReferrer (hosts : List String) (refHost : Option String) : Bool :=
  match refHost with
  | none => false
  | some h => validHostSimple hosts h

/-- The Proxy configuration fields read by admission control. -/
structure Proxy where
  Referrers : List String := []
  Whitelist : List String := []
  WhitelistIP : List IPRange := []
  SignatureKey : List Nat := []

/-- The two package-level gcache decision caches. -/
structure HostCaches where
  allowedHosts : List String := []
  notAllowedHosts : List String := []
  deriving DecidableEq, Repr

/-- gcache `Get` (hit test; recency bookkeeping has no observable effect
here). -/
def cacheHas (c : List String) (h : String) : Bool := c.contains h

/-- gcache `Set` (idempotent insert; LRU eviction not modelled). -/
def cacheSet (c : List String) (h : String) : List String :=
  if c.contains h then c else h :: c

/-- Model of `Proxy.allowedCached` (src/imageproxy.go:723-763), returning
the decision and the updated caches.  Error strings abbreviate the
source's formatted messages. -/
def allowedCached (p : Proxy) (caches : HostCaches) (r : Request)
    (cn : String → Except String String)
    (lookupIP : String → Except String (List (List Nat))) :
    Except String Unit × HostCaches :=
  if p.Referrers.length > 0 && !validReferrer p.Referrers r.originalRefererHost then
    (.error "request does not contain an allowed referrer", caches)
  else if p.Whitelist.length = 0 && p.SignatureKey.length = 0 && p.WhitelistIP.length = 0 then
    (.ok (), caches)
  else if cacheHas caches.allowedHosts r.url.host then (.ok (), caches)
  else if (p.SignatureKey.length = 0 || r.options.Signature.length = 0) &&
      cacheHas caches.notAllowedHosts r.url.host then
    (.error ("request does not contain an allowed host: " ++ r.url.host), caches)
  else if (p.Whitelist.length > 0 && validHostBool p.Whitelist r.url cn) ||
      (p.WhitelistIP.length > 0 && validIPBool p.WhitelistIP r.url.host lookupIP) then
    (.ok (), { caches with allowedHosts := cacheSet caches.allowedHosts r.url.host })
  else
    let caches1 :=
      if p.Whitelist.length > 0 || p.WhitelistIP.length > 0 then
        { caches with notAllowedHosts := cacheSet caches.notAllowedHosts r.url.host }
      else caches
    if p.SignatureKey.length > 0 && validSignature p.SignatureKey r then (.ok (), caches1)
    else (.error "request does not contain an allowed host or valid signature", caches1)

/-! ### Transforming transport (src/imageproxy.go:904-1055) -/

/-- An HTTP response as the transport sees it. -/
structure HttpResponse where
  proto : String := ""
  status : String := ""
  statusCode : Int := 0
  headers : List (String × String) := []
  body : List Nat := []
  deriving DecidableEq, Repr

/-- `Header.Get`: first value for the key ("" when absent).  Keys are
compared verbatim; the embedding always uses canonical spelling. -/
def headerGet (hs : List (String × String)) (k : String) : String :=
  match hs.find? (fun kv => kv.1 == k) with
  | some kv => kv.2
  | none => ""

/-- Whitespace for `strings.TrimSpace` (ASCII subset). -/
def isSpaceC (c : Char) : Bool :=
  c = ' ' || c = '\t' || c = '\n' || c.toNat = 12 || c.toNat = 13

/-- `strings.TrimSpace`. -/
def trimSpaceL (l : List Char) : List Char :=
  ((l.dropWhile isSpaceC).reverse.dropWhile isSpaceC).reverse

/-- The request data `RoundTrip` inspects. -/
structure TTRequest where
  urlNoFrag : String
  fragment : String
  ifNoneMatch : String := ""
  ifModifiedSince : String := ""

/-- The transport's collaborators: the underlying transport, the inner
caching client, the size/pixel ceilings (`MaxResponseSize`, the package
variable `MaxPixels`), the imaging/codec operations, `MaxScaleUp`, and
`time.Parse` for RFC1123 dates (`none` = parse error). -/
structure TTEnv (α : Type) where
  transport : TTRequest → Except String HttpResponse
  cachingGet : String → Except String HttpResponse
  maxResponseSize : Nat
  maxPixels : Int
  M : ImagingOps α
  C : Codec α
  maxScaleUp : Q
  parseTime : String → Option Int

/-- Model of `should304` (src/imageproxy.go:880-902). -/
def should304 (parseTime : String → Option Int) (req : TTRequest) (resp : HttpResponse) : Bool :=
  let etag := headerGet resp.headers "Etag"
  if etag ≠ "" && etag == req.ifNoneMatch then true
  else
    match parseTime (headerGet resp.headers "Last-Modified"), parseTime req.ifModifiedSince with
    | some lastModified, some ifModSince => lastModified < ifModSince
    | _, _ => false

/-- Go's `uint64(contentLength) > maxSize`: a negative `int` wraps to a
huge unsigned value, so it always compares greater. -/
def goUintGtMax (cl : Int) (max : Nat) : Bool :=
  if cl < 0 then true else decide (cl.toNat > max)

/-- `ioutil.ReadAll` through `NewLimitedReadCloser(body, max)`: succeeds
with the whole body iff it is strictly shorter than `max` (at `≥ max`
bytes the reader's budget reaches zero and the next read fails). -/
def readAllLimited (max : Nat) (body : List Nat) : Except String (List Nat) :=
  if body.length ≥ max then .error (tooLargeMsg (max : Int)) else .ok body

/-- Model of `TransformingTransport.RoundTrip` (src/imageproxy.go:922-1032).
The final in-memory serialisation + `http.ReadResponse` re-parse is the
identity on the data it carries and is modelled as record construction. -/
def roundTripTT {α : Type} (env : TTEnv α) (req : TTRequest) : Except String HttpResponse :=
  if req.fragment = "" then env.transport req
  else
    match env.cachingGet req.urlNoFrag with
    | .error e => .error ("error in client request: " ++ e)
    | .ok resp =>
        if resp.statusCode ≠ 200 then
          .error ("status code: " ++ String.mk (intReprL resp.statusCode))
        else
          let cts := headerGet resp.headers "Content-Type"
          let ct := String.mk (trimSpaceL (cts.data.takeWhile (fun c => c ≠ ';')))
          if !(ct == "image/jpg" || ct == "image/jpeg" || ct == "image/png" || ct == "image/gif") then
            .error ("error: invalid content-type: " ++ cts ++ " => " ++ ct)
          else if should304 env.parseTime req resp then
            .ok { statusCode := 304 }
          else
            let contentLength := (parseIntL (headerGet resp.headers "Content-Length").data).getD 0
            if goUintGtMax contentLength env.maxResponseSize then
              .error ("size in bytes too large: max size: " ++
                String.mk (natReprL env.maxResponseSize) ++ ", content-length: " ++
                String.mk (intReprL contentLength))
            else
              match readAllLimited env.maxResponseSize resp.body with
              | .error e => .error e
              | .ok b =>
                  match env.C.decodeConfig b with
                  | .error e =>
                      .error ("invalid image format: " ++ e ++ ", url: " ++ req.urlNoFrag)
                  | .ok (w, h) =>
                      if h * w > env.maxPixels then
                        .error ("size in pixels too large: max size: " ++
                          String.mk (intReprL env.maxPixels) ++ ", real size: " ++
                          String.mk (intReprL (h * w)))
                      else
                        let opt := ParseOptions req.fragment
                        let img :=
                          match Transform env.M env.C env.maxScaleUp b opt req.urlNoFrag with
                          | .ok i => i
                          | .error _ => b
                        .ok { proto := resp.proto, status := resp.status,
                              statusCode := resp.statusCode,
                              headers := (resp.headers.filter (fun kv =>
                                !(kv.1 == "Content-Length" ||
                                  (kv.1 == "Content-Type" &&
                                    (opt.Format ≠ "" || cts == "image/webp" ||
                                      cts == "image/tiff"))))) ++
                                [("Content-Length", String.mk (natReprL img.length))],
                              body := img }

/-- The tail extraction performed by the anchored regular expression
`status code:\s+(\d+)$` of src/imageproxy.go:1034: the maximal trailing
digit run, preceded by at least one whitespace character, preceded by the
literal `status code:`. -/
def matchStatusTail (l : List Char) : Option Nat :=
  let rev := l.reverse
  let ds := rev.takeWhile isDigitC
  let rest1 := rev.dropWhile isDigitC
  let ws := rest1.takeWhile isSpaceC
  let rest2 := rest1.dropWhile isSpaceC
  if ds.isEmpty || ws.isEmpty then none
  else if ("status code:".data.reverse).isPrefixOf rest2 then some (ofDigitsL ds.reverse)
  else none

/-- Model of `getStatusCode` (src/imageproxy.go:1036-1055).  (When the
digit run overflows Go's int, `Atoi` fails and the Go code also answers
500, which agrees with the out-of-range rule in this unbounded model.) -/
def getStatusCode (s : String) : Int :=
  let code : Int := ((matchStatusTail s.data).getD 0 : Nat)
  if code = 0 ∨ code > 599 then 500 else code

/-! ### Concrete instantiations used by witnesses -/

/-- A free image type: every imaging operation is a constructor, so a
witness can observe exactly which operation ran with which arguments. -/
inductive TraceImage where
  | base : Int → Int → TraceImage
  | crop : TraceImage → Int → Int → Int → Int → TraceImage
  | fit : TraceImage → Int → Int → TraceImage
  | resize : TraceImage → Int → Int → TraceImage
  | thumbnail : TraceImage → Int → Int → TraceImage
  | rot90 : TraceImage → TraceImage
  | rot180 : TraceImage → TraceImage
  | rot270 : TraceImage → TraceImage
  | flipV : TraceImage → TraceImage
  | flipH : TraceImage → TraceImage
  deriving DecidableEq, Repr

/-- Bounds of a trace image: the base carries them; derived images keep
the base's (sufficient for the witnesses below, which apply one step). -/
def TraceImage.dims : TraceImage → Int × Int
  | .base w h => (w, h)
  | .crop m _ _ _ _ => m.dims
  | .fit m _ _ => m.dims
  | .resize m _ _ => m.dims
  | .thumbnail m _ _ => m.dims
  | .rot90 m => m.dims
  | .rot180 m => m.dims
  | .rot270 m => m.dims
  | .flipV m => m.dims
  | .flipH m => m.dims

/-- The imaging operations on trace images. -/
def traceOps : ImagingOps TraceImage where
  bounds := fun m => ⟨0, 0, m.dims.1, m.dims.2⟩
  crop := .crop
  fit := .fit
  resize := .resize
  thumbnail := .thumbnail
  rotate90 := .rot90
  rotate180 := .rot180
  rotate270 := .rot270
  flipV := .flipV
  flipH := .flipH

/-- A codec whose decoder always fails (no image bytes are valid). -/
def failCodec : Codec TraceImage where
  decode := fun _ => .error "image: unknown format"
  decodeConfig := fun _ => .ok (1, 1)
  exifOrientation := fun _ => {}
  encodeJpeg := fun _ _ => .ok []
  encodePng := fun _ => .ok []
  encodeTiff := fun _ => .ok []
  gifProcess := fun _ _ => .ok []

/-! ### Claim theorems -/

/-- C1: `Options.transform()` is true iff at least one of Width, Height,
Rotate, FlipHorizontal, FlipVertical, or both CropWidth and CropHeight is
nonzero; and whenever it is false, `Transform` returns the input byte
string unchanged, for every URL and for every imaging/codec
instantiation — in particular for a codec whose decoder always fails, so
the input is never decoded. -/
theorem C1_transform_iff_and_bypass (o : Options) :
    (o.transform = true ↔
      (o.Width.num ≠ 0 ∨ o.Height.num ≠ 0 ∨ o.Rotate ≠ 0 ∨ o.FlipHorizontal = true ∨
        o.FlipVertical = true ∨ (o.CropWidth ≠ 0 ∧ o.CropHeight ≠ 0))) ∧
    (o.transform = false → ∀ (α : Type) (M : ImagingOps α) (C : Codec α) (maxS : Q)
      (img : List Nat) (url : String), Transform M C maxS img o url = .ok img) := by
  constructor
  · unfold Options.transform
    simp only [Bool.or_eq_true, Bool.and_eq_true, decide_eq_true_eq]
    tauto
  · intro h α M C maxS img url
    unfold Transform
    rw [h]
    rfl

/-- Witness for C1 at the default options, three concrete bytes, and the
always-failing codec. -/
theorem C1_witness :
    Transform traceOps failCodec ⟨2, 1⟩ [7, 8, 9] {} "http://example.com/a.png" =
      .ok [7, 8, 9] :=
  (C1_transform_iff_and_bypass {}).2 (by decide) TraceImage traceOps failCodec ⟨2, 1⟩
    [7, 8, 9] "http://example.com/a.png"

/-- C4: the ScaleUp contract of `resizeParams`.  With `ScaleUp` false the
dimensions used for resizing never exceed the source dimensions (in
particular a requested width resolving above `imgW` is clamped), and with
`ScaleUp` true, when the completed target size exceeds the source pixel
count by more than `MaxScaleUp`, `resizeParams` reverts to the source
dimensions, so the skip test fires and resizing is skipped entirely
(the result equals the source image). -/
theorem C4_scaleUp_contract {α : Type} (M : ImagingOps α) (maxS : Q) (m : α) (opt : Options) :
    (opt.ScaleUp = false →
      0 ≤ (M.bounds m).maxX - (M.bounds m).minX →
      0 ≤ (M.bounds m).maxY - (M.bounds m).minY →
      (resizeParams M maxS m opt).1 ≤ (M.bounds m).maxX - (M.bounds m).minX ∧
        (resizeParams M maxS m opt).2.1 ≤ (M.bounds m).maxY - (M.bounds m).minY) ∧
    (∀ nW nH : Int, opt.ScaleUp = true →
      newSize (evaluateFloat opt.Width ((M.bounds m).maxX - (M.bounds m).minX))
          (evaluateFloat opt.Height ((M.bounds m).maxY - (M.bounds m).minY))
          ((M.bounds m).maxX - (M.bounds m).minX)
          ((M.bounds m).maxY - (M.bounds m).minY) = .ok (nW, nH) →
      scaleRatioGt (nW * nH)
          (((M.bounds m).maxX - (M.bounds m).minX) * ((M.bounds m).maxY - (M.bounds m).minY))
          maxS = true →
      resizeParams M maxS m opt = (0, 0, false)) := by
  constructor
  · intro hsu hw hh
    unfold resizeParams
    rw [hsu]
    simp only [Bool.not_false, Bool.true_and]
    set imgW := (M.bounds m).maxX - (M.bounds m).minX
    set imgH := (M.bounds m).maxY - (M.bounds m).minY
    set w0 := evaluateFloat opt.Width imgW
    set h0 := evaluateFloat opt.Height imgH
    set w1 := if decide (w0 > imgW) = true then imgW else w0 with hw1
    set h1 := if decide (h0 > imgH) = true then imgH else h0 with hh1
    have hw1'' : w1 ≤ imgW := by
      rw [hw1]
      by_cases hc : w0 > imgW
      · rw [if_pos (by simpa using hc)]
      · rw [if_neg (by simpa using hc)]
        omega
    have hh1'' : h1 ≤ imgH := by
      rw [hh1]
      by_cases hc : h0 > imgH
      · rw [if_pos (by simpa using hc)]
      · rw [if_neg (by simpa using hc)]
        omega
    cases hns : newSize w1 h1 imgW imgH with
    | error e => exact ⟨hw, hh⟩
    | ok p =>
        obtain ⟨nW, nH⟩ := p
        simp only [Bool.false_and, Bool.false_eq_true, if_false]
        by_cases hskip : (w1 = imgW ∨ w1 = 0) ∧ (h1 = imgH ∨ h1 = 0)
        · rw [if_pos hskip]
          exact ⟨hw, hh⟩
        · rw [if_neg hskip]
          exact ⟨hw1'', hh1''⟩
  · intro nW nH hsu hns hratio
    unfold resizeParams
    rw [hsu]
    simp only [Bool.not_true, Bool.false_and, Bool.false_eq_true, if_false]
    rw [hns]
    simp only [Bool.true_and, hratio, if_pos rfl]
    rw [if_pos ⟨Or.inl rfl, Or.inl rfl⟩]

theorem C4_witness :
    ((resizeParams traceOps ⟨2, 1⟩ (TraceImage.base 100 100) { Width := ⟨200, 1⟩ }).1 ≤ 100 ∧
      (resizeParams traceOps ⟨2, 1⟩ (TraceImage.base 100 100) { Width := ⟨200, 1⟩ }).2.1 ≤ 100) ∧
    resizeParams traceOps ⟨2, 1⟩ (TraceImage.base 100 100)
        { Width := ⟨1000, 1⟩, Height := ⟨1000, 1⟩, ScaleUp := true } = (0, 0, false) := by
  constructor
  · have h := (C4_scaleUp_contract traceOps ⟨2, 1⟩ (TraceImage.base 100 100)
      { Width := ⟨200, 1⟩ }).1 rfl (by decide) (by decide)
    simpa using h
  · exact (C4_scaleUp_contract traceOps ⟨2, 1⟩ (TraceImage.base 100 100)
      { Width := ⟨1000, 1⟩, Height := ⟨1000, 1⟩, ScaleUp := true }).2 1000 1000 rfl rfl rfl

/-- C5: refuted (code bug).  `cropParams` clamps only the bottom-right
corner (`x1`, `y1`) to the image bounds and never clamps the top-left
corner, so a crop X offset beyond the image width yields a rectangle
with `x0 = 500` on a 100-pixel-wide image: `x0` exceeds both `x1` and
`imgW`, violating the claimed containment
`0 ≤ x0 ≤ x1 ≤ imgW ∧ 0 ≤ y0 ≤ y1 ≤ imgH`. -/
theorem C5_crop_rectangle_escapes_bounds :
    ∃ x0 y0 x1 y1 : Int,
      cropParams traceOps (TraceImage.base 100 100)
          { CropX := 500, CropWidth := 50, CropHeight := 50 } = (x0, y0, x1, y1, true) ∧
      ¬(0 ≤ x0 ∧ x0 ≤ x1 ∧ x1 ≤ 100 ∧ 0 ≤ y0 ∧ y0 ≤ y1 ∧ y1 ≤ 100) :=
  ⟨500, 0, 100, 50, by decide, by decide⟩

theorem newSize_w_only (w imgW imgH : Int) (hw : 0 < w) (hW : imgW ≠ 0) (hH : imgH ≠ 0) :
    newSize w 0 imgW imgH = .ok (w, ((qDivInt imgH imgW).mulInt w).trunc) := by
  unfold newSize
  split_ifs with h1 h2 h3 h4 h5
  · exfalso; simp only [Bool.and_eq_true, decide_eq_true_eq] at h1; omega
  · exfalso; simp only [Bool.or_eq_true, decide_eq_true_eq] at h2; tauto
  · exfalso; simp only [Bool.and_eq_true, decide_eq_true_eq] at h3; omega
  · exfalso; omega
  · rfl
  · exfalso; exact h5 rfl

theorem newSize_h_only (h imgW imgH : Int) (hh : 0 < h) (hW : imgW ≠ 0) (hH : imgH ≠ 0) :
    newSize 0 h imgW imgH = .ok (((qDivInt imgW imgH).mulInt h).trunc, h) := by
  unfold newSize
  split_ifs with h1 h2 h3 h4 h5
  · exfalso; simp only [Bool.and_eq_true, decide_eq_true_eq] at h1; omega
  · exfalso; simp only [Bool.or_eq_true, decide_eq_true_eq] at h2; tauto
  · exfalso; simp only [Bool.and_eq_true, decide_eq_true_eq] at h3; omega
  · rfl
  · exfalso; exact h4 rfl
  · exfalso; exact h4 rfl

/-- C10 (amended): fit with a single dimension.  When `Fit` is set and
exactly one of Width/Height resolves to a positive value *strictly
below* the source dimension while the other resolves to 0 (with no
crop, rotation or flips and `ScaleUp` off), `resizeParams` still
reports `resize = true` with the unset target dimension equal to 0, and
`transformImage` passes that zero box side straight into the fit
operation.  The strictness is necessary: when the resolved dimension
equals (or, clamped, reaches) the source dimension, the skip test
`(w = imgW ∨ w = 0) ∧ (h = imgH ∨ h = 0)` fires, `resizeParams`
reports no resize and fit is never called — see the counterexample. -/
theorem C10_fit_single_dimension {α : Type} (M : ImagingOps α) (maxS : Q) (m : α) (opt : Options)
    (hfit : opt.Fit = true) (hsu : opt.ScaleUp = false) (hrot : opt.Rotate = 0)
    (hfv : opt.FlipVertical = false) (hfh : opt.FlipHorizontal = false)
    (hcx : opt.CropX = 0) (hcy : opt.CropY = 0) (hcw : opt.CropWidth = 0) (hch : opt.CropHeight = 0)
    (hdims :
      (0 < evaluateFloat opt.Width ((M.bounds m).maxX - (M.bounds m).minX) ∧
        evaluateFloat opt.Width ((M.bounds m).maxX - (M.bounds m).minX) <
          (M.bounds m).maxX - (M.bounds m).minX ∧
        evaluateFloat opt.Height ((M.bounds m).maxY - (M.bounds m).minY) = 0) ∨
      (evaluateFloat opt.Width ((M.bounds m).maxX - (M.bounds m).minX) = 0 ∧
        0 < evaluateFloat opt.Height ((M.bounds m).maxY - (M.bounds m).minY) ∧
        evaluateFloat opt.Height ((M.bounds m).maxY - (M.bounds m).minY) <
          (M.bounds m).maxY - (M.bounds m).minY))
    (hW : 0 < (M.bounds m).maxX - (M.bounds m).minX)
    (hH : 0 < (M.bounds m).maxY - (M.bounds m).minY) :
    resizeParams M maxS m opt =
      (evaluateFloat opt.Width ((M.bounds m).maxX - (M.bounds m).minX),
        evaluateFloat opt.Height ((M.bounds m).maxY - (M.bounds m).minY), true) ∧
    transformImage M maxS m opt =
      M.fit m (evaluateFloat opt.Width ((M.bounds m).maxX - (M.bounds m).minX))
        (evaluateFloat opt.Height ((M.bounds m).maxY - (M.bounds m).minY)) := by
  set imgW := (M.bounds m).maxX - (M.bounds m).minX with himgW
  set imgH := (M.bounds m).maxY - (M.bounds m).minY with himgH
  set w0 := evaluateFloat opt.Width imgW with hw0
  set h0 := evaluateFloat opt.Height imgH with hh0
  have hrp : resizeParams M maxS m opt = (w0, h0, true) := by
    unfold resizeParams
    rw [hsu]
    simp only [Bool.not_false, Bool.true_and]
    rw [← himgW, ← himgH, ← hw0, ← hh0]
    have hcw1 : ¬(decide (w0 > imgW) = true) := by
      simp only [decide_eq_true_eq]
      rcases hdims with ⟨p1, p2, p3⟩ | ⟨p1, p2, p3⟩ <;> omega
    have hch1 : ¬(decide (h0 > imgH) = true) := by
      simp only [decide_eq_true_eq]
      rcases hdims with ⟨p1, p2, p3⟩ | ⟨p1, p2, p3⟩ <;> omega
    rw [if_neg hcw1, if_neg hch1]
    rcases hdims with ⟨p1, p2, p3⟩ | ⟨p1, p2, p3⟩
    · rw [p3, newSize_w_only w0 imgW imgH p1 hW.ne' hH.ne']
      have hskip : ¬((w0 = imgW ∨ w0 = 0) ∧ ((0 : Int) = imgH ∨ True)) := by
        rintro ⟨hd, -⟩
        rcases hd with hd | hd <;> omega
      simp only [Bool.false_and, Bool.false_eq_true, if_false]
      rw [if_neg hskip]
    · rw [p1, newSize_h_only h0 imgW imgH p2 hW.ne' hH.ne']
      have hskip : ¬(((0 : Int) = imgW ∨ True) ∧ (h0 = imgH ∨ h0 = 0)) := by
        rintro ⟨-, hd⟩
        rcases hd with hd | hd <;> omega
      simp only [Bool.false_and, Bool.false_eq_true, if_false]
      rw [if_neg hskip]
  refine ⟨hrp, ?_⟩
  have hcp : cropParams M m opt = (0, 0, 0, 0, false) := by
    unfold cropParams
    rw [if_pos ⟨hcx, hcy, hcw, hch⟩]
  unfold transformImage
  simp only [hcp, hrp, hrot, hfv, hfh, hfit, if_true, if_false, Bool.false_eq_true]
  rw [if_neg (by decide), if_neg (by decide), if_neg (by decide)]

theorem C10_witness :
    resizeParams traceOps ⟨2, 1⟩ (TraceImage.base 50 50) { Width := ⟨30, 1⟩, Fit := true } =
      (30, 0, true) ∧
    transformImage traceOps ⟨2, 1⟩ (TraceImage.base 50 50) { Width := ⟨30, 1⟩, Fit := true } =
      TraceImage.fit (TraceImage.base 50 50) 30 0 := by
  have h := C10_fit_single_dimension traceOps ⟨2, 1⟩ (TraceImage.base 50 50)
    { Width := ⟨30, 1⟩, Fit := true } rfl rfl rfl rfl rfl rfl rfl rfl rfl
    (Or.inl (by decide)) (by decide) (by decide)
  exact ⟨h.1.trans rfl, h.2.trans rfl⟩

/-- C10 counterexample: the frozen claim's antecedent without the
strictness — on a 100×100 image, `Width = 100` with `Fit` set resolves
to the positive value 100 while Height resolves to 0 — yet
`resizeParams` reports `(0, 0, false)` (the skip test fires on
`w = imgW` and `h = 0`) and `transformImage` returns the image
untouched: the fit operation is never called, refuting "resizeParams
still reports resize=true ... and transformImage passes that zero
dimension into the fit operation" for this covered case. -/
theorem C10_counterexample :
    ({ Width := ⟨100, 1⟩, Fit := true } : Options).Fit = true ∧
    evaluateFloat ({ Width := ⟨100, 1⟩, Fit := true } : Options).Width 100 = 100 ∧
    evaluateFloat ({ Width := ⟨100, 1⟩, Fit := true } : Options).Height 100 = 0 ∧
    resizeParams traceOps ⟨2, 1⟩ (TraceImage.base 100 100)
      { Width := ⟨100, 1⟩, Fit := true } = (0, 0, false) ∧
    transformImage traceOps ⟨2, 1⟩ (TraceImage.base 100 100)
      { Width := ⟨100, 1⟩, Fit := true } = TraceImage.base 100 100 :=
  ⟨rfl, by decide, by decide, by decide, by decide⟩

/-- C7: the bounded reader.  (i) Over any sequence of reads the total
number of bytes yielded never exceeds the ceiling `L` the reader was
constructed with; (ii) each successful read is clamped to the remaining
budget; (iii) once the budget is exhausted (`N ≤ 0`) a read fails with
the "response body too large" error naming the limit and yields no data;
(iv) `Close` delegates to the wrapped stream. -/
theorem C7_limited_reader :
    (∀ (L : Int) (ps : List Nat) (rc : GoReadCloser),
        runReads (NewLimitedReadCloser L) rc ps ≤ L.toNat) ∧
    (∀ (l : LimitedReadCloser) (rc : GoReadCloser) (p : Nat), l.n ≤ 0 →
        l.read rc p = (.error (tooLargeMsg l.limit), l, rc)) ∧
    (∀ (l : LimitedReadCloser) (rc : GoReadCloser) (p : Nat) (chunk : List Nat)
        (l' : LimitedReadCloser) (rc' : GoReadCloser),
        l.read rc p = (.ok chunk, l', rc') → (chunk.length : Int) ≤ l.n) ∧
    (∀ (l : LimitedReadCloser) (rc : GoReadCloser), l.close rc = rc.close) := by
  refine ⟨?_, ?_, ?_, ?_⟩
  · intro L ps rc
    exact runReads_le ps (NewLimitedReadCloser L) rc
  · intro l rc p h0
    unfold LimitedReadCloser.read
    rw [if_pos h0]
  · intro l rc p chunk l' rc' h
    unfold LimitedReadCloser.read at h
    by_cases h0 : l.n ≤ 0
    · rw [if_pos h0] at h
      exact absurd h (by simp)
    · rw [if_neg h0] at h
      simp only [Prod.mk.injEq, Except.ok.injEq] at h
      obtain ⟨h1, -, -⟩ := h
      have hpos : 0 < l.n := by omega
      by_cases hc : (p : Int) > l.n
      · rw [if_pos (by simpa using hc)] at h1
        have : chunk.length ≤ l.n.toNat := by
          rw [← h1]; simp [List.length_take]
        omega
      · rw [if_neg (by simpa using hc)] at h1
        have : chunk.length ≤ p := by
          rw [← h1]; simp [List.length_take]
        omega
  · intro l rc
    rfl

theorem C7_witness :
    runReads (NewLimitedReadCloser 5) ⟨[1, 2, 3, 4, 5, 6, 7, 8], false⟩ [3, 10, 4] ≤ 5 ∧
    (NewLimitedReadCloser 0).read ⟨[9], false⟩ 4 =
      (.error (tooLargeMsg 0), NewLimitedReadCloser 0, ⟨[9], false⟩) ∧
    (([1, 2, 3] : List Nat).length : Int) ≤ (NewLimitedReadCloser 5).n ∧
    (NewLimitedReadCloser 5).close ⟨[], false⟩ = GoReadCloser.close ⟨[], false⟩ :=
  ⟨C7_limited_reader.1 5 [3, 10, 4] ⟨[1, 2, 3, 4, 5, 6, 7, 8], false⟩,
   C7_limited_reader.2.1 (NewLimitedReadCloser 0) ⟨[9], false⟩ 4 (by decide),
   C7_limited_reader.2.2.1 (NewLimitedReadCloser 5) ⟨[1, 2, 3, 4], false⟩ 3 [1, 2, 3] ⟨2, 5⟩
     ⟨[4], false⟩ rfl,
   C7_limited_reader.2.2.2 (NewLimitedReadCloser 5) ⟨[], false⟩⟩

theorem space_not_digit (c : Char) (h : isSpaceC c = true) : isDigitC c = false := by
  unfold isSpaceC at h
  simp only [Bool.or_eq_true, decide_eq_true_eq] at h
  have h5 : c.toNat = 32 ∨ c.toNat = 9 ∨ c.toNat = 10 ∨ c.toNat = 12 ∨ c.toNat = 13 := by
    rcases h with (((h | h) | h) | h) | h
    · left; rw [h]; rfl
    · right; left; rw [h]; rfl
    · right; right; left; rw [h]; rfl
    · tauto
    · tauto
  unfold isDigitC
  rcases h5 with h | h | h | h | h <;> rw [h] <;> rfl

theorem dropWhile_append_stop {p : Char → Bool} :
    ∀ (xs : List Char) (y : Char) (ys : List Char),
    (∀ c ∈ xs, p c = true) → p y = false →
    ((xs ++ y :: ys).dropWhile p) = y :: ys := by
  intro xs
  induction xs with
  | nil => intro y ys _ hy; simp [List.dropWhile_cons, hy]
  | cons a as ih =>
      intro y ys hall hy
      have ha : p a = true := hall a (by simp)
      simp only [List.cons_append, List.dropWhile_cons, ha, if_true]
      exact ih y ys (fun c hc => hall c (by simp [hc])) hy

theorem isPrefixOf_append_self (xs ys : List Char) : xs.isPrefixOf (xs ++ ys) = true :=
  List.isPrefixOf_iff_prefix.mpr (List.prefix_append xs ys)

/-- Soundness half of the regex model: a match yields a decomposition of
the input into prefix, literal `status code:`, nonempty whitespace and a
nonempty digit run whose value is the extracted number. -/
theorem matchStatusTail_some (l : List Char) (n : Nat) (h : matchStatusTail l = some n) :
    ∃ t ws ds : List Char, l = t ++ "status code:".data ++ ws ++ ds ∧
      ws ≠ [] ∧ (∀ c ∈ ws, isSpaceC c = true) ∧
      ds ≠ [] ∧ (∀ c ∈ ds, isDigitC c = true) ∧ ofDigitsL ds = n := by
  unfold matchStatusTail at h
  by_cases hempty : ((l.reverse.takeWhile isDigitC).isEmpty ||
      ((l.reverse.dropWhile isDigitC).takeWhile isSpaceC).isEmpty) = true
  · rw [if_pos hempty] at h; cases h
  · rw [if_neg hempty] at h
    by_cases hpre : ("status code:".data.reverse).isPrefixOf
        ((l.reverse.dropWhile isDigitC).dropWhile isSpaceC) = true
    · rw [if_pos hpre] at h
      obtain ⟨t', ht'⟩ := (List.isPrefixOf_iff_prefix.mp hpre)
      simp only [Bool.or_eq_true, List.isEmpty_iff, not_or] at hempty
      refine ⟨t'.reverse, ((l.reverse.dropWhile isDigitC).takeWhile isSpaceC).reverse,
        (l.reverse.takeWhile isDigitC).reverse, ?_, ?_, ?_, ?_, ?_, ?_⟩
      · have h1 : l.reverse.takeWhile isDigitC ++ l.reverse.dropWhile isDigitC = l.reverse :=
          List.takeWhile_append_dropWhile isDigitC l.reverse
        have h2 : (l.reverse.dropWhile isDigitC).takeWhile isSpaceC ++
            (l.reverse.dropWhile isDigitC).dropWhile isSpaceC = l.reverse.dropWhile isDigitC :=
          List.takeWhile_append_dropWhile isSpaceC (l.reverse.dropWhile isDigitC)
        have h3 : l.reverse = l.reverse.takeWhile isDigitC ++
            ((l.reverse.dropWhile isDigitC).takeWhile isSpaceC ++
              ("status code:".data.reverse ++ t')) := by
          rw [ht', h2, h1]
        have h4 := congrArg List.reverse h3
        rw [List.reverse_reverse] at h4
        conv_lhs => rw [h4]
        simp [List.reverse_append, List.append_assoc]
      · simpa using hempty.2
      · intro c hc
        rw [List.mem_reverse] at hc
        exact List.mem_takeWhile_imp hc
      · simpa using hempty.1
      · intro c hc
        rw [List.mem_reverse] at hc
        exact List.mem_takeWhile_imp hc
      · exact Option.some.inj h
    · rw [if_neg hpre] at h; cases h

/-- Completeness half: any such decomposition is matched, and the
extracted number is the digit run's value. -/
theorem matchStatusTail_of_decomp (t ws ds : List Char)
    (hws : ws ≠ []) (hwsall : ∀ c ∈ ws, isSpaceC c = true)
    (hds : ds ≠ []) (hdsall : ∀ c ∈ ds, isDigitC c = true) :
    matchStatusTail (t ++ "status code:".data ++ ws ++ ds) = some (ofDigitsL ds) := by
  obtain ⟨w1, ws1, hw⟩ : ∃ w1 ws1, ws.reverse = w1 :: ws1 := by
    cases hwr : ws.reverse with
    | nil => exact absurd (by simpa using congrArg List.reverse hwr) hws
    | cons a b => exact ⟨a, b, rfl⟩
  have hw1mem : w1 ∈ ws := by
    rw [← List.mem_reverse, hw]; simp
  have hrev : (t ++ "status code:".data ++ ws ++ ds).reverse =
      ds.reverse ++ (w1 :: (ws1 ++ ("status code:".data.reverse ++ t.reverse))) := by
    simp [List.reverse_append, List.append_assoc, hw]
  have hdsrev : ∀ c ∈ ds.reverse, isDigitC c = true := by
    intro c hc; exact hdsall c (List.mem_reverse.mp hc)
  have hw1d : isDigitC w1 = false := space_not_digit w1 (hwsall w1 hw1mem)
  have htake : (t ++ "status code:".data ++ ws ++ ds).reverse.takeWhile isDigitC = ds.reverse := by
    rw [hrev]; exact takeWhile_append_stop _ _ _ hdsrev hw1d
  have hdrop : (t ++ "status code:".data ++ ws ++ ds).reverse.dropWhile isDigitC =
      w1 :: (ws1 ++ ("status code:".data.reverse ++ t.reverse)) := by
    rw [hrev]; exact dropWhile_append_stop _ _ _ hdsrev hw1d
  have hwsrev : ∀ c ∈ w1 :: ws1, isSpaceC c = true := by
    intro c hc
    exact hwsall c (by rw [← List.mem_reverse, hw]; exact hc)
  have hcolon : isSpaceC ':' = false := rfl
  have hshape : w1 :: (ws1 ++ ("status code:".data.reverse ++ t.reverse)) =
      (w1 :: ws1) ++ ':' :: ("edoc sutats".data ++ t.reverse) := by
    rw [show "status code:".data.reverse = ':' :: "edoc sutats".data from by decide]
    rfl
  have htake2 : (w1 :: (ws1 ++ ("status code:".data.reverse ++ t.reverse))).takeWhile isSpaceC =
      w1 :: ws1 := by
    rw [hshape]; exact takeWhile_append_stop _ _ _ hwsrev hcolon
  have hdrop2 : (w1 :: (ws1 ++ ("status code:".data.reverse ++ t.reverse))).dropWhile isSpaceC =
      ':' :: ("edoc sutats".data ++ t.reverse) := by
    rw [hshape]; exact dropWhile_append_stop _ _ _ hwsrev hcolon
  simp only [matchStatusTail]
  rw [htake, hdrop, htake2, hdrop2]
  have hne1 : (ds.reverse.isEmpty || (w1 :: ws1).isEmpty) = false := by
    cases hdr : ds.reverse with
    | nil => exact absurd (by simpa using congrArg List.reverse hdr) hds
    | cons a b => rfl
  rw [hne1]
  simp only [Bool.false_eq_true, if_false]
  have hpre : ("status code:".data.reverse).isPrefixOf
      (':' :: ("edoc sutats".data ++ t.reverse)) = true := by
    have hconcat : (':' : Char) :: ("edoc sutats".data ++ t.reverse) =
        "status code:".data.reverse ++ t.reverse := by
      rw [show "status code:".data.reverse = ':' :: "edoc sutats".data from by decide]
      rfl
    rw [hconcat]
    exact isPrefixOf_append_self _ _
  rw [if_pos hpre, List.reverse_reverse]

/-- C9: status-code extraction.  (i) When the error message ends in the
pattern `status code:` + whitespace + digits, `getStatusCode` returns the
digit run's value if it lies in `1..599` and 500 if it is 0 or above 599;
(ii) when no such trailing pattern exists, `getStatusCode` returns 500;
(iii) `RoundTrip` produces exactly such an error (`status code: N`)
whenever the upstream status `N` is not 200. -/
theorem C9_status_code {α : Type} :
    (∀ (s : String) (t ws ds : List Char),
      s.data = t ++ "status code:".data ++ ws ++ ds →
      ws ≠ [] → (∀ c ∈ ws, isSpaceC c = true) →
      ds ≠ [] → (∀ c ∈ ds, isDigitC c = true) →
      (0 < ofDigitsL ds → ofDigitsL ds ≤ 599 → getStatusCode s = ofDigitsL ds) ∧
      (ofDigitsL ds = 0 ∨ 599 < ofDigitsL ds → getStatusCode s = 500)) ∧
    (∀ s : String,
      (¬∃ t ws ds : List Char, s.data = t ++ "status code:".data ++ ws ++ ds ∧
          ws ≠ [] ∧ (∀ c ∈ ws, isSpaceC c = true) ∧ ds ≠ [] ∧ (∀ c ∈ ds, isDigitC c = true)) →
      getStatusCode s = 500) ∧
    (∀ (env : TTEnv α) (req : TTRequest) (resp : HttpResponse),
      req.fragment ≠ "" →
      env.cachingGet req.urlNoFrag = .ok resp →
      resp.statusCode ≠ 200 →
      roundTripTT env req = .error ("status code: " ++ String.mk (intReprL resp.statusCode))) := by
  refine ⟨?_, ?_, ?_⟩
  · intro s t ws ds hdec hws hwsall hds hdsall
    have hm : matchStatusTail s.data = some (ofDigitsL ds) := by
      rw [hdec]
      exact matchStatusTail_of_decomp t ws ds hws hwsall hds hdsall
    constructor
    · intro h1 h2
      simp only [getStatusCode, hm, Option.getD_some]
      rw [if_neg (by omega)]
    · intro h12
      simp only [getStatusCode, hm, Option.getD_some]
      rw [if_pos (by omega)]
  · intro s hno
    have hm : matchStatusTail s.data = none := by
      cases hmt : matchStatusTail s.data with
      | none => rfl
      | some n =>
          obtain ⟨t, ws, ds, hdec, hws, hwsall, hds, hdsall, -⟩ :=
            matchStatusTail_some s.data n hmt
          exact absurd ⟨t, ws, ds, hdec, hws, hwsall, hds, hdsall⟩ hno
    simp only [getStatusCode, hm, Option.getD_none]
    rw [if_pos (by omega)]
  · intro env req resp hfrag hget hsc
    simp only [roundTripTT, hget]
    rw [if_neg hfrag, if_pos hsc]

theorem C9_witness :
    getStatusCode "fetch failed: status code: 404" = 404 ∧
    getStatusCode "status code: 700" = 500 ∧
    getStatusCode "no code here" = 500 ∧
    roundTripTT
      { transport := fun _ => .error "unused", cachingGet := fun _ => .ok { statusCode := 404 },
        maxResponseSize := 10, maxPixels := 100, M := traceOps, C := failCodec,
        maxScaleUp := ⟨2, 1⟩, parseTime := fun _ => none }
      { urlNoFrag := "http://example.com/a.png", fragment := "100x100" } =
      .error "status code: 404" := by
  refine ⟨?_, ?_, ?_, ?_⟩
  · have h := (C9_status_code (α := TraceImage)).1 "fetch failed: status code: 404"
      "fetch failed: ".data [' '] ['4', '0', '4'] (by decide) (by decide) (by decide)
      (by decide) (by decide)
    exact (h.1 (by decide) (by decide)).trans rfl
  · have h := (C9_status_code (α := TraceImage)).1 "status code: 700" [] [' ']
      ['7', '0', '0'] (by decide) (by decide) (by decide) (by decide) (by decide)
    exact h.2 (Or.inr (by decide))
  · refine (C9_status_code (α := TraceImage)).2.1 "no code here" ?_
    rintro ⟨t, ws, ds, hdec, hws, hwsall, hds, hdsall⟩
    have hc := matchStatusTail_of_decomp t ws ds hws hwsall hds hdsall
    rw [← hdec] at hc
    rw [show matchStatusTail "no code here".data = none from by decide] at hc
    cases hc
  · exact ((C9_status_code (α := TraceImage)).2.2 _ _ { statusCode := 404 } (by decide) rfl
      (by decide)).trans rfl

/-- C8: transform failures are not surfaced.  On the transforming path
(non-empty fragment) with a valid upstream fetch (status 200, whitelisted
content type, size and pixel checks passed), if `Transform` returns an
error on the fetched bytes `b`, `RoundTrip` still answers with a
synthetic success response whose body is `b` and whose status code is the
upstream's. -/
theorem C8_transform_error_fallback {α : Type} (env : TTEnv α) (req : TTRequest)
    (resp : HttpResponse) (b : List Nat) (w h : Int) (e : String)
    (hfrag : req.fragment ≠ "")
    (hget : env.cachingGet req.urlNoFrag = .ok resp)
    (hsc : resp.statusCode = 200)
    (hct : (!(String.mk (trimSpaceL ((headerGet resp.headers "Content-Type").data.takeWhile
        (fun c => c ≠ ';'))) == "image/jpg" ||
      String.mk (trimSpaceL ((headerGet resp.headers "Content-Type").data.takeWhile
        (fun c => c ≠ ';'))) == "image/jpeg" ||
      String.mk (trimSpaceL ((headerGet resp.headers "Content-Type").data.takeWhile
        (fun c => c ≠ ';'))) == "image/png" ||
      String.mk (trimSpaceL ((headerGet resp.headers "Content-Type").data.takeWhile
        (fun c => c ≠ ';'))) == "image/gif")) = false)
    (h304 : should304 env.parseTime req resp = false)
    (hcl : goUintGtMax ((parseIntL (headerGet resp.headers "Content-Length").data).getD 0)
        env.maxResponseSize = false)
    (hread : readAllLimited env.maxResponseSize resp.body = .ok b)
    (hdc : env.C.decodeConfig b = .ok (w, h))
    (hpx : ¬(h * w > env.maxPixels))
    (htr : Transform env.M env.C env.maxScaleUp b (ParseOptions req.fragment) req.urlNoFrag =
        .error e) :
    ∃ r : HttpResponse, roundTripTT env req = .ok r ∧ r.body = b ∧
      r.statusCode = resp.statusCode := by
  simp only [roundTripTT, hget, hread, hdc, htr, h304, hcl, hct, Bool.false_eq_true, if_false]
  rw [if_neg hfrag, if_neg (show ¬(resp.statusCode ≠ 200) from fun hh => hh hsc),
    if_neg hpx]
  exact ⟨_, rfl, rfl, rfl⟩

theorem C8_witness :
    ∃ r : HttpResponse,
      roundTripTT
        { transport := fun _ => .error "unused",
          cachingGet := fun _ =>
            .ok { statusCode := 200, headers := [("Content-Type", "image/png")], body := [1, 2, 3] },
          maxResponseSize := 10, maxPixels := 100, M := traceOps, C := failCodec,
          maxScaleUp := ⟨2, 1⟩, parseTime := fun _ => none }
        { urlNoFrag := "http://example.com/a.png", fragment := "100x100" } = .ok r ∧
      r.body = [1, 2, 3] ∧ r.statusCode = 200 := by
  refine C8_transform_error_fallback
    { transport := fun _ => .error "unused",
      cachingGet := fun _ =>
        .ok { statusCode := 200, headers := [("Content-Type", "image/png")], body := [1, 2, 3] },
      maxResponseSize := 10, maxPixels := 100, M := traceOps, C := failCodec,
      maxScaleUp := ⟨2, 1⟩, parseTime := fun _ => none }
    { urlNoFrag := "http://example.com/a.png", fragment := "100x100" }
    { statusCode := 200, headers := [("Content-Type", "image/png")], body := [1, 2, 3] }
    [1, 2, 3] 1 1 "image: unknown format"
    (by decide) rfl rfl (by decide) rfl rfl rfl rfl (by decide) ?_
  rfl

/-- C6 (amended): the round-trip `ParseOptions (o.String())` = `o` holds
for every canonical `o` except those whose Signature is the collision
string "caleUp" (whose encoding `,scaleUp` re-parses as the scaleUp
keyword, see the counterexample). -/
theorem C6_options_string_roundtrip (o : Options) (hcan : canonicalOptions o)
    (hsig : o.Signature ≠ "caleUp") :
    ParseOptions (Options.goString o) = o :=
  parseOptions_roundtrip o hcan hsig

theorem C6_witness :
    ParseOptions (Options.goString
      { Width := ⟨100, 1⟩, Fit := true, Rotate := 90,
        Quality := 80, Signature := "abc", CropWidth := 10, CropX := 5 }) =
      { Width := ⟨100, 1⟩, Fit := true, Rotate := 90, Quality := 80, Signature := "abc",
        CropWidth := 10, CropX := 5 } :=
  C6_options_string_roundtrip
    { Width := ⟨100, 1⟩, Fit := true, Rotate := 90, Quality := 80, Signature := "abc",
      CropWidth := 10, CropX := 5 }
    ⟨⟨⟨one_ne_zero, Nat.coprime_one_right _⟩, by decide, 0, by decide⟩,
      ⟨⟨one_ne_zero, Nat.coprime_one_right _⟩, by decide, 0, by decide⟩,
      by decide, by decide, by decide, rfl⟩
    (by decide)

/-- C6 counterexample: the canonical Options value with Signature
"caleUp" breaks the round-trip — its string form ends in ",scaleUp",
which re-parses as the scaleUp keyword instead of a signature. -/
theorem C6_counterexample :
    canonicalOptions { Signature := "caleUp" } ∧
    ParseOptions (Options.goString { Signature := "caleUp" }) ≠ { Signature := "caleUp" } := by
  constructor
  · exact ⟨⟨⟨one_ne_zero, Nat.coprime_one_right _⟩, by decide, 0, by decide⟩,
      ⟨⟨one_ne_zero, Nat.coprime_one_right _⟩, by decide, 0, by decide⟩,
      by decide, by decide, by decide, rfl⟩
  · decide

/-- C2 (amended): signature validation on the reference vector.  For
remote URL `http://test/image` and key `c0ffee` the documented signature
validates both with and without its trailing `=` padding; altering the
URL (`/image2`) or replacing the signature with `deadbeef` fails.  (The
claim's universal "any alteration of the signature fails" is refuted by
the counterexample: Go's non-Strict base64 decoder ignores the unused
trailing bits of the final character.  `hmac.Equal`'s constant-time
execution is a timing property outside this model.) -/
theorem C2_signature_validation :
    validSignature (strBytes "c0ffee")
      { url := { scheme := "http", host := "test", path := "/image", rawQuery := "" },
        options := { Signature := "NDx5zZHx7QfE8E-ijowRreq6CJJBZjwiRfOVk_mkfQQ=" } } = true ∧
    validSignature (strBytes "c0ffee")
      { url := { scheme := "http", host := "test", path := "/image", rawQuery := "" },
        options := { Signature := "NDx5zZHx7QfE8E-ijowRreq6CJJBZjwiRfOVk_mkfQQ" } } = true ∧
    validSignature (strBytes "c0ffee")
      { url := { scheme := "http", host := "test", path := "/image2", rawQuery := "" },
        options := { Signature := "NDx5zZHx7QfE8E-ijowRreq6CJJBZjwiRfOVk_mkfQQ=" } } = false ∧
    validSignature (strBytes "c0ffee")
      { url := { scheme := "http", host := "test", path := "/image", rawQuery := "" },
        options := { Signature := "deadbeef" } } = false :=
  ⟨by decide, by decide, by decide, by decide⟩

/-- C2 counterexample: changing the final signature character from `Q`
to `R` alters the signature string but only its four unused trailing
bits, and Go's default (non-Strict) URL base64 decoder ignores those, so
the altered signature still validates — refuting "any alteration of the
signature makes validation fail". -/
theorem C2_counterexample :
    ("NDx5zZHx7QfE8E-ijowRreq6CJJBZjwiRfOVk_mkfQR=" : String) ≠
      "NDx5zZHx7QfE8E-ijowRreq6CJJBZjwiRfOVk_mkfQQ=" ∧
    validSignature (strBytes "c0ffee")
      { url := { scheme := "http", host := "test", path := "/image", rawQuery := "" },
        options := { Signature := "NDx5zZHx7QfE8E-ijowRreq6CJJBZjwiRfOVk_mkfQR=" } } = true :=
  ⟨by decide, by decide⟩

/-- C3 (amended): when a signature key is configured and the request
carries a signature, the negative host cache is bypassed on consultation
— the admission decision is independent of `notAllowedHosts` — and a
request with a valid signature is admitted no matter what the caches
hold, so a previously denied host can still be admitted.  (The claim's
further assertion that a denial records into `notAllowedHosts` *only
when no signature is in play* is refuted by the counterexample: the
recording guard checks only that a whitelist is configured.) -/
theorem C3_negative_cache (p : Proxy) (r : Request)
    (cn : String → Except String String)
    (lookupIP : String → Except String (List (List Nat)))
    (hkey : p.SignatureKey.length > 0) (hsig : r.options.Signature.length > 0) :
    (∀ (caches : HostCaches) (nah' : List String),
      (allowedCached p { caches with notAllowedHosts := nah' } r cn lookupIP).1 =
        (allowedCached p caches r cn lookupIP).1) ∧
    (p.Referrers = [] → validSignature p.SignatureKey r = true →
      ∀ caches : HostCaches, (allowedCached p caches r cn lookupIP).1 = .ok ()) := by
  have h1 : decide (p.SignatureKey.length = 0) = false := by
    simp only [decide_eq_false_iff_not]; omega
  have h2 : decide (r.options.Signature.length = 0) = false := by
    simp only [decide_eq_false_iff_not]; omega
  constructor
  · intro caches nah'
    unfold allowedCached
    dsimp only
    simp only [h1, h2, Bool.false_or, Bool.false_and, Bool.false_eq_true, if_false]
    split_ifs <;> rfl
  · intro href hvs caches
    unfold allowedCached
    have hre : (p.Referrers.length > 0 && !validReferrer p.Referrers r.originalRefererHost) =
        false := by
      rw [href]; rfl
    rw [hre]
    simp only [Bool.false_eq_true, if_false, h1, h2, Bool.and_false, Bool.false_and,
      Bool.false_or]
    by_cases hah : cacheHas caches.allowedHosts r.url.host = true
    · simp [hah]
    · simp only [hah, Bool.false_eq_true, if_false]
      by_cases hwl : ((p.Whitelist.length > 0 && validHostBool p.Whitelist r.url cn) ||
          (p.WhitelistIP.length > 0 && validIPBool p.WhitelistIP r.url.host lookupIP)) = true
      · simp [hwl]
      · simp only [hwl, Bool.false_eq_true, if_false]
        have h3 : (p.SignatureKey.length > 0 && validSignature p.SignatureKey r) = true := by
          rw [hvs]
          simp only [Bool.and_true, decide_eq_true_eq]
          omega
        simp [h3]

theorem C3_witness :
    (allowedCached { Whitelist := ["good"], SignatureKey := strBytes "c0ffee" }
        { allowedHosts := [], notAllowedHosts := ["test"] }
        { url := { scheme := "http", host := "test", path := "/image", rawQuery := "" },
          options := { Signature := "NDx5zZHx7QfE8E-ijowRreq6CJJBZjwiRfOVk_mkfQQ=" } }
        (fun h => .ok h) (fun _ => .error "no dns")).1 =
      (allowedCached { Whitelist := ["good"], SignatureKey := strBytes "c0ffee" } {}
        { url := { scheme := "http", host := "test", path := "/image", rawQuery := "" },
          options := { Signature := "NDx5zZHx7QfE8E-ijowRreq6CJJBZjwiRfOVk_mkfQQ=" } }
        (fun h => .ok h) (fun _ => .error "no dns")).1 ∧
    (allowedCached { Whitelist := ["good"], SignatureKey := strBytes "c0ffee" }
        { allowedHosts := [], notAllowedHosts := ["test"] }
        { url := { scheme := "http", host := "test", path := "/image", rawQuery := "" },
          options := { Signature := "NDx5zZHx7QfE8E-ijowRreq6CJJBZjwiRfOVk_mkfQQ=" } }
        (fun h => .ok h) (fun _ => .error "no dns")).1 = .ok () := by
  constructor
  · exact (C3_negative_cache { Whitelist := ["good"], SignatureKey := strBytes "c0ffee" }
      { url := { scheme := "http", host := "test", path := "/image", rawQuery := "" },
        options := { Signature := "NDx5zZHx7QfE8E-ijowRreq6CJJBZjwiRfOVk_mkfQQ=" } }
      (fun h => .ok h) (fun _ => .error "no dns") (by decide) (by decide)).1 {} ["test"]
  · exact (C3_negative_cache { Whitelist := ["good"], SignatureKey := strBytes "c0ffee" }
      { url := { scheme := "http", host := "test", path := "/image", rawQuery := "" },
        options := { Signature := "NDx5zZHx7QfE8E-ijowRreq6CJJBZjwiRfOVk_mkfQQ=" } }
      (fun h => .ok h) (fun _ => .error "no dns") (by decide) (by decide)).2 rfl (by decide)
      { allowedHosts := [], notAllowedHosts := ["test"] }

deriving instance DecidableEq for Except

/-- C3 counterexample: with a whitelist configured, a signature key set
and a request that carries a *valid* signature for a non-whitelisted
host, `allowedCached` admits the request via the signature — yet still
records the host into `notAllowedHosts`, because the recording guard
only checks that a whitelist exists.  This refutes "a host is recorded
into notAllowedHosts on a denial only when no signature is in play" and
"the negative cache is ... left unchanged". -/
theorem C3_counterexample :
    allowedCached { Whitelist := ["good"], SignatureKey := strBytes "c0ffee" } {}
      { url := { scheme := "http", host := "test", path := "/image", rawQuery := "" },
        options := { Signature := "NDx5zZHx7QfE8E-ijowRreq6CJJBZjwiRfOVk_mkfQQ=" } }
      (fun h => .ok h) (fun _ => .error "no dns") =
      (.ok (), { allowedHosts := [], notAllowedHosts := ["test"] }) := by decide
